import Mathlib

/-!
# go-git-http `auth` package: request gate for a Git Smart-HTTP server

A shallow embedding of `src/auth/auth.go` and the properties of it that the
specification states.

Conventions of the embedding.

* A Go `string` is a `List Char`.  The only characters the code inspects are
  ASCII (`/`, the endpoint names, `git-`), so reading the text as a sequence of
  characters rather than of bytes does not change any comparison.
* `regexp` is modelled by a syntax tree for the operators the pattern of
  `repoNameRegex` uses and a backtracking matcher with Go's leftmost-first
  preference order (`x?` and `x*` prefer more, `x*?` prefers fewer, `a|b`
  prefers `a`; `.` does not match a line feed; `^` and `$` are the beginning and
  end of the text).
* `http.ResponseWriter` is an interface; a writer is modelled by the sequence of
  method calls made on it, and `respond` is the response the `net/http` server
  builds from such a sequence.
* A `*http.Request` is modelled by its state.  The work of the standard library
  on the raw request (`BasicAuth`, parsing the query and a form body) is taken
  as given; what is modelled is when the form is parsed and what that changes
  in the request.
* The decision function and the downstream handler are arbitrary functions on a
  state the gate cannot inspect; calls to them are counted by spies.
-/

namespace Auth

/-! ## Regular expressions (the part of Go's `regexp` the package uses) -/

/-- Syntax of the regular expressions of the embedding. -/
inductive Regex where
  /-- The empty pattern. -/
  | empty : Regex
  /-- A literal character. -/
  | char : Char → Regex
  /-- The pattern `.`: any character but a line feed. -/
  | anyNotNL : Regex
  /-- The pattern `^`: beginning of the text. -/
  | beginText : Regex
  /-- The pattern `$`: end of the text. -/
  | endText : Regex
  /-- Concatenation `ab`. -/
  | cat : Regex → Regex → Regex
  /-- Alternation `a|b`, preferring `a`. -/
  | alt : Regex → Regex → Regex
  /-- Option `a?`, preferring one occurrence. -/
  | quest : Regex → Regex
  /-- Repetition `a*`, preferring more occurrences. -/
  | star : Regex → Regex
  /-- Repetition `a*?`, preferring fewer occurrences. -/
  | lazyStar : Regex → Regex
  /-- Numbered capturing group `(a)`. -/
  | capture : Nat → Regex → Regex

/-- Text of the capturing groups seen so far; a group that took no part is the
empty string, as in the slice `FindStringSubmatch` returns. -/
abbrev Captures := Nat → List Char

/-- Record the text of group `i`. -/
def Captures.set (caps : Captures) (i : Nat) (v : List Char) : Captures :=
  fun j => if j = i then v else caps j

/-- A literal string, as the concatenation of its characters. -/
def Regex.str : List Char → Regex
  | [] => Regex.empty
  | c :: cs => Regex.cat (Regex.char c) (Regex.str cs)

/-- First alternative that succeeds. -/
def orElse (a : Option Captures) (b : Unit → Option Captures) : Option Captures :=
  match a with
  | some r => some r
  | none => b ()

/-- Iteration of a greedy star: `step` matches the body once, `k` is what
follows the star.  Another round is tried first, and only when the body
consumed something; `n` bounds the number of rounds by the length of the
remaining text. -/
def starLoop (step : List Char → Captures → (List Char → Captures → Option Captures) → Option Captures)
    (k : List Char → Captures → Option Captures) : Nat → List Char → Captures → Option Captures
  | 0, s, caps => k s caps
  | n + 1, s, caps =>
    orElse (step s caps (fun t caps1 => if t.length < s.length then starLoop step k n t caps1 else none))
      (fun _ => k s caps)

/-- Iteration of a lazy star: what follows the star is tried first, another
round of the body only when that fails. -/
def lazyStarLoop (step : List Char → Captures → (List Char → Captures → Option Captures) → Option Captures)
    (k : List Char → Captures → Option Captures) : Nat → List Char → Captures → Option Captures
  | 0, s, caps => k s caps
  | n + 1, s, caps =>
    orElse (k s caps)
      (fun _ => step s caps (fun t caps1 => if t.length < s.length then lazyStarLoop step k n t caps1 else none))

/-- Backtracking matcher.  `text` is the whole text, `s` the part of it not yet
consumed, `caps` the groups recorded so far and `k` the continuation run on
what is left after the pattern; the first successful path is returned. -/
def Regex.run (text : List Char) :
    Regex → List Char → Captures → (List Char → Captures → Option Captures) → Option Captures
  | Regex.empty, s, caps, k => k s caps
  | Regex.char c, s, caps, k =>
    match s with
    | [] => none
    | x :: t => if x = c then k t caps else none
  | Regex.anyNotNL, s, caps, k =>
    match s with
    | [] => none
    | x :: t => if x = '\n' then none else k t caps
  | Regex.beginText, s, caps, k => if s.length = text.length then k s caps else none
  | Regex.endText, s, caps, k =>
    match s with
    | [] => k [] caps
    | _ :: _ => none
  | Regex.cat a b, s, caps, k => Regex.run text a s caps (fun t caps1 => Regex.run text b t caps1 k)
  | Regex.alt a b, s, caps, k =>
    orElse (Regex.run text a s caps k) (fun _ => Regex.run text b s caps k)
  | Regex.quest a, s, caps, k =>
    orElse (Regex.run text a s caps k) (fun _ => k s caps)
  | Regex.star a, s, caps, k => starLoop (Regex.run text a) k s.length s caps
  | Regex.lazyStar a, s, caps, k => lazyStarLoop (Regex.run text a) k s.length s caps
  | Regex.capture i a, s, caps, k =>
    Regex.run text a s caps
      (fun t caps1 => k t (caps1.set i (s.take (s.length - t.length))))

/-- Number of the highest capturing group of a pattern (`NumSubexp`). -/
def Regex.numSubexp : Regex → Nat
  | Regex.cat a b => max a.numSubexp b.numSubexp
  | Regex.alt a b => max a.numSubexp b.numSubexp
  | Regex.quest a => a.numSubexp
  | Regex.star a => a.numSubexp
  | Regex.lazyStar a => a.numSubexp
  | Regex.capture i a => max i a.numSubexp
  | _ => 0

/-- Leftmost match: the pattern is tried at each position of the text in turn,
`s` being the text from the position under trial.  Group 0 is the whole
match. -/
def Regex.findFrom (re : Regex) (text : List Char) : List Char → Option Captures
  | [] =>
    re.run text [] (fun _ => []) (fun t caps => some (caps.set 0 (List.take (0 - t.length) [])))
  | c :: s =>
    orElse
      (re.run text (c :: s) (fun _ => [])
        (fun t caps => some (caps.set 0 ((c :: s).take ((c :: s).length - t.length)))))
      (fun _ => Regex.findFrom re text s)

/-- Model of `(*Regexp).FindStringSubmatch`: `none` is the nil slice (no match),
otherwise the text of the leftmost match followed by the text of each group. -/
def FindStringSubmatch (re : Regex) (text : List Char) : Option (List (List Char)) :=
  match re.findFrom text text with
  | none => none
  | some caps => some ((List.range (re.numSubexp + 1)).map caps)

/-! ## The package -/

/-- The package variable `repoNameRegex`, the pattern
`^/?(.*?)/(HEAD|git-upload-pack|git-receive-pack|info/refs|objects/.*)$`. -/
def repoNameRegex : Regex :=
  Regex.cat Regex.beginText
    (Regex.cat (Regex.quest (Regex.char '/'))
      (Regex.cat (Regex.capture 1 (Regex.lazyStar Regex.anyNotNL))
        (Regex.cat (Regex.char '/')
          (Regex.cat
            (Regex.capture 2
              (Regex.alt (Regex.str "HEAD".toList)
                (Regex.alt (Regex.str "git-upload-pack".toList)
                  (Regex.alt (Regex.str "git-receive-pack".toList)
                    (Regex.alt (Regex.str "info/refs".toList)
                      (Regex.cat (Regex.str "objects/".toList) (Regex.star Regex.anyNotNL)))))))
            Regex.endText))))

/-- The function `repoName`: group 1 of the match of `repoNameRegex` on the URL
path, the empty string when there is no match.  On a match the slice has three
entries (`FindStringSubmatch_repoNameRegex`), so `matches[1]` is in range. -/
def repoName (urlPath : List Char) : List Char :=
  match FindStringSubmatch repoNameRegex urlPath with
  | none => []
  | some submatches => submatches.getD 1 []

/-- The function `strings.HasPrefix`. -/
def strings.HasPrefix (s pre : List Char) : Bool := pre.isPrefixOf s

/-- The function `strings.HasSuffix`. -/
def strings.HasSuffix (s suffix : List Char) : Bool := suffix.isSuffixOf s

/-- The call `strings.Replace(s, old, new, 1)`: the first occurrence of `old`
in `s` is replaced by `new`. -/
def strings.ReplaceFirst (old new : List Char) : List Char → List Char
  | [] => if old = [] then new else []
  | c :: t =>
    if old.isPrefixOf (c :: t) then new ++ (c :: t).drop old.length
    else c :: strings.ReplaceFirst old new t

/-- The fields of a `*http.Request` that parsing its form sets. -/
structure FormFields where
  /-- The field `r.Form`; `none` is the nil map of a request not yet parsed. -/
  Form : Option (List (List Char × List Char))
  /-- The field `r.PostForm`; `none` is nil. -/
  PostForm : Option (List (List Char × List Char))
  /-- The values of the field `r.MultipartForm`; `none` is nil. -/
  MultipartForm : Option (List (List Char × List Char))
  /-- The part of `r.Body` not yet read. -/
  Body : List Char
  deriving DecidableEq

/-- What `r.ParseMultipartForm(defaultMaxMemory)` leaves in a request: the
parameters of the query and, when the body is a form (URL-encoded with method
POST, PUT or PATCH, or multipart), of the body, which it reads. -/
structure ParsedForm where
  /-- The map `r.Form` after parsing, in the order `FormValue` consults it. -/
  Form : List (List Char × List Char)
  /-- The map `r.PostForm` after parsing. -/
  PostForm : List (List Char × List Char)
  /-- The values of `r.MultipartForm` after parsing; `none` when the body is not
  multipart. -/
  MultipartForm : Option (List (List Char × List Char))
  /-- What is left of the body after parsing: all of it when the body is not a
  form. -/
  Body : List Char
  deriving DecidableEq

/-- The state of a `*http.Request`, as far as the package and its
collaborators are concerned. -/
structure Request where
  /-- Request method. -/
  Method : List Char
  /-- Result of `req.BasicAuth()`: the user name and password of the
  `Authorization` header, `none` when the method reports `ok = false` (the
  header is absent or is not well-formed Basic authentication). -/
  BasicAuth : Option (List Char × List Char)
  /-- The field `req.URL.Path`. -/
  URLPath : List Char
  /-- The current form fields and body. -/
  fields : FormFields
  /-- What parsing the form of this request yields (the work of `net/url` and
  `mime/multipart` on the query and the body). -/
  parsed : ParsedForm
  deriving DecidableEq

/-- The map `r.Form` as `FormValue` consults it: the one already in the
request, or, when that is nil, the one parsing the form yields. -/
def Request.Form (r : Request) : List (List Char × List Char) :=
  match r.fields.Form with
  | some f => f
  | none => r.parsed.Form

/-- The effect of `FormValue` on the request: when `r.Form` is nil the form is
parsed, which sets `Form`, `PostForm` and `MultipartForm` and reads a form
body; otherwise nothing changes. -/
def Request.parseForm (r : Request) : Request :=
  match r.fields.Form with
  | some _ => r
  | none =>
    { r with fields :=
        { Form := some r.parsed.Form
          PostForm := some r.parsed.PostForm
          MultipartForm := r.parsed.MultipartForm
          Body := r.parsed.Body } }

/-- The value of the method `FormValue`: the first value of the parameter, the
empty string when it is absent.  The call leaves the request as
`Request.parseForm` describes. -/
def Request.FormValue (r : Request) (key : List Char) : List Char :=
  match r.Form.find? (fun kv => kv.1 = key) with
  | some kv => kv.2
  | none => []

/-- The struct `AuthInfo`. -/
structure AuthInfo where
  /-- Usernane or email. -/
  Username : List Char
  /-- Plaintext password or token. -/
  Password : List Char
  /-- Repo component of URL. -/
  Repo : List Char
  /-- Are we pushing? -/
  Push : Bool
  /-- Are we fetching? -/
  Fetch : Bool
  /-- The inbound request (a pointer in Go): its state when the decision
  function is called. -/
  Request : Request

/-- A non-nil Go `error`: its message, and the status code when its dynamic type
implements the interface `StatusError`. -/
structure GoError where
  /-- The method `Error()`. -/
  Error : List Char
  /-- The method `StatusCode()` of `StatusError`, when the error has it. -/
  StatusCode : Option Int

/-- A method call on an `http.ResponseWriter`. -/
inductive WriterCall where
  /-- The call `w.Header().Set(key, value)`, with the field name as the caller
  spells it. -/
  | headerSet : List Char → List Char → WriterCall
  /-- The call `w.Header().Del(key)`. -/
  | headerDel : List Char → WriterCall
  /-- The call `w.WriteHeader(code)`. -/
  | writeHeader : Int → WriterCall
  /-- The call `w.Write(data)`. -/
  | write : List Char → WriterCall
  deriving DecidableEq

/-- An `http.ResponseWriter`, as the calls made on it so far, oldest first. -/
abbrev ResponseWriter := List WriterCall

/-- The bytes allowed in a header field name (`validHeaderFieldByte`): letters,
digits and the token punctuation of RFC 7230. -/
def validHeaderFieldByte (c : Char) : Bool :=
  let n := c.toNat
  n == 33 || (35 ≤ n && n ≤ 39) || n == 42 || n == 43 || n == 45 || n == 46
    || (48 ≤ n && n ≤ 57) || (65 ≤ n && n ≤ 90) || (94 ≤ n && n ≤ 122) || n == 124 || n == 126

/-- The loop of `canonicalMIMEHeaderKey`: upper case for the first letter and
for a letter after a dash, lower case for the others. -/
def canonicalLoop : Bool → List Char → List Char
  | _, [] => []
  | upper, c :: t =>
    let c1 := if upper then c.toUpper else c.toLower
    c1 :: canonicalLoop (c1 == '-') t

/-- The function `textproto.CanonicalMIMEHeaderKey`, under which `Header.Set`,
`Header.Del` and `Header.Get` store and look up a field name; a name with a
byte that is not allowed is left as it is. -/
def textproto.CanonicalMIMEHeaderKey (s : List Char) : List Char :=
  if s.all validHeaderFieldByte then canonicalLoop true s else s

/-- The function `bodyAllowedForStatus` of `net/http`. -/
def bodyAllowedForStatus (status : Int) : Bool :=
  if 100 ≤ status ∧ status ≤ 199 then false
  else if status = 204 then false
  else if status = 304 then false
  else true

/-- The response a `net/http` server builds from a sequence of writer calls. -/
structure Response where
  /-- Whether the final status line has been written. -/
  wroteHeader : Bool
  /-- The final status code written. -/
  status : Int
  /-- The header fields under their canonical names, latest set first. -/
  header : List (List Char × List Char)
  /-- The body written. -/
  body : List Char
  /-- The informational (1xx) responses sent before the final one. -/
  interim : List Int
  /-- Whether a call panicked (`checkWriteHeaderCode`); the handler stops there
  and the server sends no final response. -/
  panicked : Bool
  deriving DecidableEq

/-- The response before any call. -/
def Response.fresh : Response :=
  { wroteHeader := false, status := 0, header := [], body := [], interim := [],
    panicked := false }

/-- Effect of one writer call, as the `response` type of `net/http` treats it.
Header changes count until the final status line is written.  The first
`WriteHeader` panics on a code outside 100..999, sends an interim response on a
1xx code other than 101, and otherwise fixes the final status; later ones are
ignored.  A `Write` before that implies status 200, and its data is dropped
when the status allows no body (1xx, 204, 304).  A declared `Content-Length`
is not enforced. -/
def Response.apply (r : Response) (call : WriterCall) : Response :=
  if r.panicked then r
  else
    match call with
    | WriterCall.headerSet k v =>
      if r.wroteHeader then r
      else
        { r with header :=
            (textproto.CanonicalMIMEHeaderKey k, v)
              :: r.header.filter (fun kv => kv.1 ≠ textproto.CanonicalMIMEHeaderKey k) }
    | WriterCall.headerDel k =>
      if r.wroteHeader then r
      else { r with header := r.header.filter (fun kv => kv.1 ≠ textproto.CanonicalMIMEHeaderKey k) }
    | WriterCall.writeHeader code =>
      if r.wroteHeader then r
      else if code < 100 ∨ 999 < code then { r with panicked := true }
      else if code ≤ 199 ∧ code ≠ 101 then { r with interim := r.interim ++ [code] }
      else { r with wroteHeader := true, status := code }
    | WriterCall.write data =>
      let r1 := if r.wroteHeader then r else { r with wroteHeader := true, status := 200 }
      if bodyAllowedForStatus r1.status then { r1 with body := r1.body ++ data } else r1

/-- The response produced by a sequence of calls on a writer not yet written
to. -/
def respond (calls : List WriterCall) : Response := calls.foldl Response.apply Response.fresh

/-- The response to a given request: as `respond`, but the server sends no body
in answer to a `HEAD` request. -/
def respondTo (req : Request) (calls : List WriterCall) : Response :=
  if req.Method = "HEAD".toList then { respond calls with body := [] } else respond calls

/-- The value of a header field of a response (`Header.Get`). -/
def Response.headerGet (r : Response) (key : List Char) : Option (List Char) :=
  match r.header.find? (fun kv => kv.1 = textproto.CanonicalMIMEHeaderKey key) with
  | some kv => some kv.2
  | none => none

/-- The function `http.Error` of the standard library: it replaces the content
headers, calls `WriteHeader(code)`, and prints the message followed by a line
feed (`fmt.Fprintln`).  When `WriteHeader` panics, the print is not reached. -/
def http.Error (w : ResponseWriter) (error : List Char) (code : Int) : ResponseWriter :=
  let w1 := w ++ [WriterCall.headerDel "Content-Length".toList,
        WriterCall.headerSet "Content-Type".toList "text/plain; charset=utf-8".toList,
        WriterCall.headerSet "X-Content-Type-Options".toList "nosniff".toList,
        WriterCall.writeHeader code]
  if (respond w).wroteHeader = false ∧ (code < 100 ∨ 999 < code) then w1
  else w1 ++ [WriterCall.write (error ++ ['\n'])]

/-- The constant `http.StatusUnauthorized`. -/
def http.StatusUnauthorized : Int := 401

/-- The constant `http.StatusForbidden`. -/
def http.StatusForbidden : Int := 403

/-- The constant `http.StatusInternalServerError`. -/
def http.StatusInternalServerError : Int := 500

/-- The function `getServiceType`. -/
def getServiceType (r : Request) : List Char :=
  let service_type := r.FormValue "service".toList
  if !strings.HasPrefix service_type "git-".toList then []
  else strings.ReplaceFirst "git-".toList [] service_type

/-- The function `isService`. -/
def isService (service : List Char) (req : Request) : Bool :=
  getServiceType req == service || strings.HasSuffix req.URLPath service

/-- The function `isFetch`. -/
def isFetch (req : Request) : Bool := isService "upload-pack".toList req

/-- The function `isPush`. -/
def isPush (req : Request) : Bool := isService "receive-pack".toList req

/-- A decision function `func(AuthInfo) (bool, error)`.  It may read and change
the collaborators' state, and through the pointer in `AuthInfo` the request: it
returns its verdict, the new state, and the request as it leaves it. -/
abbrev AuthFunc (σ : Type) := AuthInfo → σ → (Bool × Option GoError) × (σ × Request)

/-- An `http.Handler`: `ServeHTTP(w, req)` makes calls on the writer and may
change the collaborators' state. -/
abbrev Handler (σ : Type) := ResponseWriter → Request → σ → ResponseWriter × σ

/-- The `AuthInfo` the gate builds for a request with credentials.  The fields
are evaluated in order: `isPush(req)` and then `isFetch(req)` each call
`FormValue`, whose effect on the request is `Request.parseForm`, so the request
the decision function is handed has its form parsed. -/
def buildInfo (authName authPass : List Char) (req : Request) : AuthInfo :=
  { Username := authName
    Password := authPass
    Repo := repoName req.URLPath
    Push := isPush req
    Fetch := isFetch req.parseForm
    Request := req.parseForm.parseForm }

/-- The handler that `Authenticator(authf)(handler)` returns, run on a writer
and a request; `st` is the state of the collaborators, which the gate passes
along and cannot inspect. -/
def Authenticator.ServeHTTP {τ : Type} (authf : AuthFunc τ) (handler : Handler τ)
    (w : ResponseWriter) (req : Request) (st : τ) : ResponseWriter × τ :=
  match req.BasicAuth with
  | none =>
    let w1 := w ++ [WriterCall.headerSet "WWW-Authenticate".toList "Basic realm=\"git server\"".toList]
    (http.Error w1 "request header has no authorization header".toList http.StatusUnauthorized, st)
  | some (authName, authPass) =>
    -- Build up info from request headers and URL
    let info := buildInfo authName authPass req
    -- Call authentication function
    let res := authf info st
    match res.1.2 with
    | some err =>
      let code := match err.StatusCode with
        | some c => c
        | none => http.StatusInternalServerError
      (http.Error w err.Error code, res.2.1)
    | none =>
      -- Deny access to repo
      if !res.1.1 then (http.Error w "Forbidden".toList http.StatusForbidden, res.2.1)
      else
        -- Access granted
        handler w res.2.2 res.2.1

/-- The state of a run observed by spies: the state `ext` of the collaborators
(decision function and downstream handler) and the record of the calls made to
them, oldest first. -/
structure World (σ : Type) where
  /-- State private to the decision function and the downstream handler. -/
  ext : σ
  /-- Argument of each call of the decision function. -/
  authfCalls : List AuthInfo
  /-- Arguments of each call of the downstream handler's `ServeHTTP`. -/
  handlerCalls : List (ResponseWriter × Request)

/-- A spy on a decision function: it applies the function and records the
argument of the call. -/
def World.spyAuth {σ : Type} (authf : AuthFunc σ) : AuthFunc (World σ) :=
  fun info st =>
    let res := authf info st.ext
    (res.1, ({ st with ext := res.2.1, authfCalls := st.authfCalls ++ [info] }, res.2.2))

/-- A spy on a downstream handler: it runs the handler and records the
arguments of the call. -/
def World.spyHandler {σ : Type} (handler : Handler σ) : Handler (World σ) :=
  fun w req st =>
    let out := handler w req st.ext
    (out.1, { st with ext := out.2, handlerCalls := st.handlerCalls ++ [(w, req)] })

/-- The function `Authenticator`, observed: the handler it builds from a
decision function and a downstream handler, each behind its spy, run on a
writer and a request.  The records of calls are written by the spies alone. -/
def Authenticator {σ : Type} (authf : AuthFunc σ) (handler : Handler σ)
    (w : ResponseWriter) (req : Request) (st : World σ) : ResponseWriter × World σ :=
  Authenticator.ServeHTTP (World.spyAuth authf) (World.spyHandler handler) w req st

/-! ## Auxiliary definitions for the proofs -/

/-- The alternation inside group 2 of `repoNameRegex`. -/
def endpointAlt : Regex :=
  Regex.alt (Regex.str "HEAD".toList)
    (Regex.alt (Regex.str "git-upload-pack".toList)
      (Regex.alt (Regex.str "git-receive-pack".toList)
        (Regex.alt (Regex.str "info/refs".toList)
          (Regex.cat (Regex.str "objects/".toList) (Regex.star Regex.anyNotNL)))))

/-- The endpoints as the pattern matches them: one of the four fixed names, or
`objects/` followed by text without a line feed. -/
def reEndpoint (e : List Char) : Bool :=
  e == "HEAD".toList || e == "git-upload-pack".toList || e == "git-receive-pack".toList
    || e == "info/refs".toList
    || ("objects/".toList.isPrefixOf e && !(e.drop 8).contains '\n')

/-- The shortest `r` without a line feed such that the text is `r`, a slash and
an endpoint: the search the lazy group `(.*?)` performs. -/
def lazyScan : List Char → Option (List Char)
  | [] => none
  | x :: t =>
    if x = '/' ∧ reEndpoint t = true then some []
    else if x = '\n' then none
    else (lazyScan t).map (fun r => x :: r)

/-- The lazy star over `.` followed by `K`, by recursion on the text. -/
def lazyDot (K : List Char → Captures → Option Captures) : List Char → Captures → Option Captures
  | [], caps => K [] caps
  | x :: t, caps =>
    orElse (K (x :: t) caps) (fun _ => if x = '\n' then none else lazyDot K t caps)

/-- Group 1 of the match of `repoNameRegex`, when there is one: the optional
leading slash is taken when a split exists after it, and dropped otherwise. -/
def repoNameScan : List Char → Option (List Char)
  | [] => none
  | x :: t =>
    if x = '/' then
      match lazyScan t with
      | some r => some r
      | none => lazyScan (x :: t)
    else lazyScan (x :: t)

/-! ## Notions of the specification -/

/-- A recognized endpoint, in the words of the specification: `HEAD`,
`git-upload-pack`, `git-receive-pack`, `info/refs`, or a string beginning with
`objects/`. -/
def isEndpoint (e : List Char) : Bool :=
  e == "HEAD".toList || e == "git-upload-pack".toList || e == "git-receive-pack".toList
    || e == "info/refs".toList || "objects/".toList.isPrefixOf e

/-- Whether the text is some `r`, a slash and a recognized endpoint. -/
def hasSplit : List Char → Bool
  | [] => false
  | x :: t => (x == '/' && isEndpoint t) || hasSplit t

/-- The text before the last position of the path at which a slash followed by
a recognized endpoint runs to the end of the path. -/
def beforeLastSplit : List Char → Option (List Char)
  | [] => none
  | x :: t =>
    match beforeLastSplit t with
    | some r => some (x :: r)
    | none => if x = '/' ∧ isEndpoint t = true then some [] else none

/-- Repository name by the rule "split at the last position": everything, after
the optional single leading slash, before the final recognized endpoint. -/
def repoNameLastSplit (p : List Char) : List Char :=
  match beforeLastSplit p with
  | none => []
  | some [] => []
  | some (x :: r) => if x = '/' then r else x :: r

/-- The condition of the granted path, in the words of the specification: the
request carries parseable Basic-Auth credentials and the decision function
returns `authorized = true` with no error. -/
def granted {σ : Type} (authf : AuthFunc σ) (req : Request) (e : σ) : Bool :=
  match req.BasicAuth with
  | none => false
  | some (u, p) =>
    (authf (buildInfo u p req) e).1.1 && (authf (buildInfo u p req) e).1.2.isNone

/-- The state of the collaborators after the decision function has been called
on the `AuthInfo` of the request (their state as it was, for a request without
credentials). -/
def decidedState {σ : Type} (authf : AuthFunc σ) (req : Request) (e : σ) : σ :=
  match req.BasicAuth with
  | none => e
  | some (u, p) => (authf (buildInfo u p req) e).2.1

/-- The request as the decision function leaves it. -/
def decidedRequest {σ : Type} (authf : AuthFunc σ) (req : Request) (e : σ) : Request :=
  match req.BasicAuth with
  | none => req
  | some (u, p) => (authf (buildInfo u p req) e).2.2

/-- The calls a run of the gate makes on the writer it is given: the calls on
the resulting writer after those already on `w`. -/
def gateCalls {σ : Type} (authf : AuthFunc σ) (handler : Handler σ)
    (w : ResponseWriter) (req : Request) (st : World σ) : List WriterCall :=
  (Authenticator authf handler w req st).1.drop w.length

/-- The form fields of a request that has not been parsed and has no body. -/
def FormFields.unparsed : FormFields :=
  { Form := none, PostForm := none, MultipartForm := none, Body := [] }

/-- What parsing yields for a request without body whose query holds the given
parameters. -/
def ParsedForm.ofQuery (form : List (List Char × List Char)) : ParsedForm :=
  { Form := form, PostForm := [], MultipartForm := none, Body := [] }

/-- A request without credentials, for the concrete cases. -/
def reqAnonymous : Request :=
  { Method := "GET".toList, BasicAuth := none, URLPath := "/org/project/info/refs".toList,
    fields := FormFields.unparsed,
    parsed := ParsedForm.ofQuery [("service".toList, "git-upload-pack".toList)] }

/-- A request with credentials, for the concrete cases. -/
def reqAlice : Request :=
  { Method := "GET".toList, BasicAuth := some ("alice".toList, "s3cret".toList),
    URLPath := "/org/project/info/refs".toList,
    fields := FormFields.unparsed,
    parsed := ParsedForm.ofQuery [("service".toList, "git-upload-pack".toList)] }

/-- A `POST` with credentials whose body is the URL-encoded form
`service=git-upload-pack`: parsing reads the body. -/
def reqFormPost : Request :=
  { Method := "POST".toList, BasicAuth := some ("alice".toList, "s3cret".toList),
    URLPath := "/org/project/git-upload-pack".toList,
    fields :=
      { Form := none, PostForm := none, MultipartForm := none,
        Body := "service=git-upload-pack".toList },
    parsed :=
      { Form := [("service".toList, "git-upload-pack".toList)],
        PostForm := [("service".toList, "git-upload-pack".toList)],
        MultipartForm := none, Body := [] } }

/-- The request of `alice` with the method `HEAD`. -/
def reqHead : Request := { reqAlice with Method := "HEAD".toList }

/-- A decision function that always answers `(authorized, err)` and leaves the
request as it is. -/
def constAuth (authorized : Bool) (err : Option GoError) : AuthFunc Unit :=
  fun info e => ((authorized, err), (e, info.Request))

/-- A downstream handler that answers 200 with the body of the request. -/
def echoHandler : Handler Unit :=
  fun w req e => (w ++ [WriterCall.writeHeader 200, WriterCall.write req.fields.Body], e)

/-- An error with the given message and status code. -/
def statusErr (msg : List Char) (code : Int) : GoError := { Error := msg, StatusCode := some code }

/-- A downstream handler that answers 200 with the body `ok`. -/
def okHandler : Handler Unit :=
  fun w _ e => (w ++ [WriterCall.writeHeader 200, WriterCall.write "ok".toList], e)

/-- A world in which nothing has been called yet. -/
def World.init : World Unit := { ext := (), authfCalls := [], handlerCalls := [] }

/-- An error with the message `teapot` that exposes status 418. -/
def teapot : GoError := { Error := "teapot".toList, StatusCode := some 418 }

/-- A request for `path` whose form holds the given parameters, for the
concrete cases. -/
def reqFor (path : List Char) (form : List (List Char × List Char)) : Request :=
  { Method := "GET".toList, BasicAuth := none, URLPath := path,
    fields := FormFields.unparsed, parsed := ParsedForm.ofQuery form }

theorem orElse_none (a : Option Captures) : orElse a (fun _ => none) = a := by
  cases a <;> rfl

theorem run_str (text l : List Char) :
    ∀ (s : List Char) (caps : Captures) (k : List Char → Captures → Option Captures),
      (Regex.str l).run text s caps k
        = if l.isPrefixOf s = true then k (s.drop l.length) caps else none := by
  induction l with
  | nil => intro s caps k; simp [Regex.str, Regex.run]
  | cons c cs ih =>
    intro s caps k
    cases s with
    | nil => simp [Regex.str, Regex.run]
    | cons x t =>
      simp only [Regex.str, Regex.run, ih]
      by_cases hx : x = c
      · subst hx; simp
      · have hx2 : ¬ c = x := fun h => hx h.symm
        simp [hx, hx2]

theorem run_dot_nil (text : List Char) (caps : Captures)
    (k : List Char → Captures → Option Captures) :
    Regex.run text Regex.anyNotNL [] caps k = none := rfl

theorem run_dot_cons (text : List Char) (x : Char) (t : List Char) (caps : Captures)
    (k : List Char → Captures → Option Captures) :
    Regex.run text Regex.anyNotNL (x :: t) caps k = if x = '\n' then none else k t caps := rfl

theorem starLoop_dot (text : List Char) (K : List Char → Captures → Option Captures)
    (hK : ∀ x t c, K (x :: t) c = none) (caps : Captures) :
    ∀ (n : Nat) (s : List Char), s.length ≤ n →
      starLoop (Regex.run text Regex.anyNotNL) K n s caps
        = if s.contains '\n' = true then none else K [] caps := by
  intro n
  induction n with
  | zero =>
    intro s hs
    have : s = [] := List.length_eq_zero.mp (Nat.le_zero.mp hs)
    subst this
    simp [starLoop]
  | succ n ih =>
    intro s hs
    cases s with
    | nil => simp [starLoop, run_dot_nil, orElse]
    | cons x t =>
      have ht : t.length ≤ n := by simpa using hs
      simp only [starLoop, run_dot_cons, hK, orElse_none]
      by_cases hx : x = '\n'
      · subst hx; simp
      · have hx2 : ¬ '\n' = x := fun h => hx h.symm
        simp [hx, hx2, ih t ht]

theorem run_cat (text : List Char) (a b : Regex) (s : List Char) (caps : Captures)
    (k : List Char → Captures → Option Captures) :
    Regex.run text (Regex.cat a b) s caps k
      = Regex.run text a s caps (fun t caps1 => Regex.run text b t caps1 k) := rfl

theorem run_alt (text : List Char) (a b : Regex) (s : List Char) (caps : Captures)
    (k : List Char → Captures → Option Captures) :
    Regex.run text (Regex.alt a b) s caps k
      = orElse (Regex.run text a s caps k) (fun _ => Regex.run text b s caps k) := rfl

theorem run_star (text : List Char) (a : Regex) (s : List Char) (caps : Captures)
    (k : List Char → Captures → Option Captures) :
    Regex.run text (Regex.star a) s caps k = starLoop (Regex.run text a) k s.length s caps := rfl

theorem run_lazyStar (text : List Char) (a : Regex) (s : List Char) (caps : Captures)
    (k : List Char → Captures → Option Captures) :
    Regex.run text (Regex.lazyStar a) s caps k
      = lazyStarLoop (Regex.run text a) k s.length s caps := rfl

theorem run_capture (text : List Char) (i : Nat) (a : Regex) (s : List Char) (caps : Captures)
    (k : List Char → Captures → Option Captures) :
    Regex.run text (Regex.capture i a) s caps k
      = Regex.run text a s caps
          (fun t caps1 => k t (caps1.set i (s.take (s.length - t.length)))) := rfl

theorem run_str_exact (text l : List Char) (K : List Char → Captures → Option Captures)
    (hK : ∀ x t c, K (x :: t) c = none) (s : List Char) (caps : Captures) :
    (Regex.str l).run text s caps K = if s = l then K [] caps else none := by
  rw [run_str]
  by_cases hp : l.isPrefixOf s = true
  · obtain ⟨t, rfl⟩ := List.isPrefixOf_iff_prefix.mp hp
    cases t with
    | nil => simp
    | cons x t => simp [hK]
  · have hne : ¬ s = l := by
      intro h
      apply hp
      rw [h]
      exact List.isPrefixOf_iff_prefix.mpr (List.prefix_refl l)
    simp [hp, hne]

theorem run_endpointAlt (text : List Char) (K : List Char → Captures → Option Captures)
    (hK : ∀ x t c, K (x :: t) c = none) (s : List Char) (caps : Captures) :
    endpointAlt.run text s caps K = if reEndpoint s = true then K [] caps else none := by
  simp only [endpointAlt, run_alt, run_cat, run_str_exact text _ K hK, run_star]
  rw [run_str]
  simp only [starLoop_dot text K hK caps _ _ (Nat.le_refl _)]
  unfold reEndpoint
  by_cases h1 : s = "HEAD".toList
  · subst h1; cases K [] caps <;> simp [orElse]
  · by_cases h2 : s = "git-upload-pack".toList
    · subst h2; cases K [] caps <;> simp [orElse]
    · by_cases h3 : s = "git-receive-pack".toList
      · subst h3; cases K [] caps <;> simp [orElse]
      · by_cases h4 : s = "info/refs".toList
        · subst h4; cases K [] caps <;> simp [orElse]
        · simp at h1 h2 h3 h4
          simp only [String.toList, orElse]
          simp [h1, h2, h3, h4]
          split_ifs <;> simp_all

theorem lazyStarLoop_dot (text : List Char) (K : List Char → Captures → Option Captures) :
    ∀ (n : Nat) (s : List Char) (caps : Captures), s.length ≤ n →
      lazyStarLoop (Regex.run text Regex.anyNotNL) K n s caps = lazyDot K s caps := by
  intro n
  induction n with
  | zero =>
    intro s caps hs
    have : s = [] := List.length_eq_zero.mp (Nat.le_zero.mp hs)
    subst this
    simp [lazyStarLoop, lazyDot]
  | succ n ih =>
    intro s caps hs
    cases s with
    | nil => simp [lazyStarLoop, lazyDot, run_dot_nil, orElse_none]
    | cons x t =>
      have ht : t.length ≤ n := by simpa using hs
      simp only [lazyStarLoop, lazyDot, run_dot_cons]
      congr 1
      funext _
      by_cases hx : x = '\n'
      · simp [hx]
      · simp [hx, ih t caps ht]

theorem run_tail (text : List Char) (k : List Char → Captures → Option Captures)
    (t : List Char) (c : Captures) :
    Regex.run text
        (Regex.cat (Regex.char '/') (Regex.cat (Regex.capture 2 endpointAlt) Regex.endText)) t c k
      = match t with
        | [] => none
        | x :: e => if x = '/' ∧ reEndpoint e = true then k [] (c.set 2 e) else none := by
  cases t with
  | nil => rfl
  | cons x e =>
    rw [run_cat]
    show (if x = '/' then _ else none) = _
    by_cases hx : x = '/'
    · rw [if_pos hx, run_cat, run_capture, run_endpointAlt]
      · by_cases he : reEndpoint e = true
        · simp [hx, he, Regex.run]
        · simp [hx, he]
      · intro y u c1; rfl
    · simp [hx]

theorem lazyDot_scan (s0 : List Char) (k : List Char → Captures → Option Captures)
    (hk : ∀ c, ∃ r, k [] c = some r)
    (K : List Char → Captures → Option Captures)
    (hK : ∀ t c1, K t c1
        = match t with
          | [] => none
          | x :: e =>
            if x = '/' ∧ reEndpoint e = true
            then k [] ((c1.set 1 (s0.take (s0.length - t.length))).set 2 e) else none) :
    ∀ (s pre : List Char) (caps : Captures), s0 = pre ++ s →
      lazyDot K s caps
        = match lazyScan s with
          | some r => k [] ((caps.set 1 (pre ++ r)).set 2 (s.drop (r.length + 1)))
          | none => none := by
  intro s
  induction s with
  | nil => intro pre caps _; simp [lazyDot, hK, lazyScan]
  | cons x t ih =>
    intro pre caps h0
    have h1 : s0 = (pre ++ [x]) ++ t := by simp [h0]
    have hlen : s0.length - (x :: t).length = pre.length := by simp [h0]
    have htake : s0.take pre.length = pre := by simp [h0]
    rw [lazyDot, hK (x :: t) caps]
    simp only [lazyScan, hlen, htake]
    by_cases hx : x = '/' ∧ reEndpoint t = true
    · obtain ⟨r, hr⟩ := hk ((caps.set 1 pre).set 2 t)
      simp [hx, orElse, hr]
    · rw [if_neg hx, if_neg hx]
      simp only [orElse]
      by_cases hn : x = '\n'
      · simp [hn]
      · rw [if_neg hn, if_neg hn, ih (pre ++ [x]) caps h1]
        cases lazyScan t with
        | none => rfl
        | some r => simp

theorem run_groups (text : List Char) (k : List Char → Captures → Option Captures)
    (hk : ∀ c, ∃ r, k [] c = some r) (s : List Char) (caps : Captures) :
    Regex.run text
        (Regex.cat (Regex.capture 1 (Regex.lazyStar Regex.anyNotNL))
          (Regex.cat (Regex.char '/') (Regex.cat (Regex.capture 2 endpointAlt) Regex.endText)))
        s caps k
      = match lazyScan s with
        | some r => k [] ((caps.set 1 r).set 2 (s.drop (r.length + 1)))
        | none => none := by
  rw [run_cat, run_capture, run_lazyStar, lazyStarLoop_dot text _ _ s caps (Nat.le_refl _)]
  have h := lazyDot_scan s k hk _ (fun t c1 => run_tail text k t _) s [] caps (by simp)
  simpa using h

theorem repoNameRegex_eq :
    repoNameRegex
      = Regex.cat Regex.beginText
          (Regex.cat (Regex.quest (Regex.char '/'))
            (Regex.cat (Regex.capture 1 (Regex.lazyStar Regex.anyNotNL))
              (Regex.cat (Regex.char '/')
                (Regex.cat (Regex.capture 2 endpointAlt) Regex.endText)))) := rfl

theorem run_repoNameRegex_off (text s : List Char) (caps : Captures)
    (k : List Char → Captures → Option Captures) (h : s.length ≠ text.length) :
    Regex.run text repoNameRegex s caps k = none := by
  rw [repoNameRegex_eq, run_cat]
  show (if s.length = text.length then _ else none) = none
  rw [if_neg h]

theorem run_repoNameRegex (x : Char) (t : List Char) (caps : Captures)
    (k : List Char → Captures → Option Captures) (hk : ∀ c, ∃ r, k [] c = some r) :
    Regex.run (x :: t) repoNameRegex (x :: t) caps k
      = if x = '/' then
          match lazyScan t with
          | some r => k [] ((caps.set 1 r).set 2 (t.drop (r.length + 1)))
          | none =>
            match lazyScan (x :: t) with
            | some r => k [] ((caps.set 1 r).set 2 ((x :: t).drop (r.length + 1)))
            | none => none
        else
          match lazyScan (x :: t) with
          | some r => k [] ((caps.set 1 r).set 2 ((x :: t).drop (r.length + 1)))
          | none => none := by
  rw [repoNameRegex_eq, run_cat]
  show (if (x :: t).length = (x :: t).length then _ else none) = _
  rw [if_pos rfl]
  show Regex.run (x :: t) (Regex.cat _ _) (x :: t) caps k = _
  rw [run_cat]
  show orElse (if x = '/' then _ else none) _ = _
  simp only [run_groups (x :: t) k hk]
  by_cases hx : x = '/'
  · rw [if_pos hx, if_pos hx]
    cases h1 : lazyScan t with
    | none => simp [orElse]
    | some r =>
      obtain ⟨c, hc⟩ := hk ((caps.set 1 r).set 2 (t.drop (r.length + 1)))
      simp [orElse, hc]
  · rw [if_neg hx, if_neg hx]
    rfl

theorem findFrom_repoNameRegex_off (text : List Char) :
    ∀ s : List Char, s.length < text.length → Regex.findFrom repoNameRegex text s = none := by
  intro s
  induction s with
  | nil =>
    intro h
    rw [Regex.findFrom, run_repoNameRegex_off]
    exact Nat.ne_of_lt h
  | cons c s ih =>
    intro h
    have hs : s.length < text.length := Nat.lt_trans (by simp) h
    rw [Regex.findFrom, run_repoNameRegex_off _ _ _ _ (Nat.ne_of_lt h), ih hs]
    rfl

theorem findFrom_repoNameRegex (p : List Char) :
    match repoNameScan p with
    | none => Regex.findFrom repoNameRegex p p = none
    | some r => ∃ caps : Captures,
        Regex.findFrom repoNameRegex p p = some caps ∧ caps 0 = p ∧ caps 1 = r := by
  cases p with
  | nil => rfl
  | cons x t =>
    have hoff := findFrom_repoNameRegex_off (x :: t) t (by simp)
    rw [Regex.findFrom, hoff, orElse_none, run_repoNameRegex x t _ _ (fun c => ⟨_, rfl⟩)]
    simp only [repoNameScan]
    by_cases hx : x = '/'
    · rw [if_pos hx, if_pos hx]
      cases h1 : lazyScan t with
      | some r => exact ⟨_, rfl, by simp [Captures.set], by simp [Captures.set]⟩
      | none =>
        cases h2 : lazyScan (x :: t) with
        | some r => exact ⟨_, rfl, by simp [Captures.set], by simp [Captures.set]⟩
        | none => rfl
    · rw [if_neg hx, if_neg hx]
      cases h2 : lazyScan (x :: t) with
      | some r => exact ⟨_, rfl, by simp [Captures.set], by simp [Captures.set]⟩
      | none => rfl

theorem FindStringSubmatch_repoNameRegex (p : List Char) :
    match repoNameScan p with
    | none => FindStringSubmatch repoNameRegex p = none
    | some r => ∃ e, FindStringSubmatch repoNameRegex p = some [p, r, e] := by
  have h := findFrom_repoNameRegex p
  cases hs : repoNameScan p with
  | none =>
    rw [hs] at h
    simp only [FindStringSubmatch, h]
  | some r =>
    rw [hs] at h
    obtain ⟨caps, hc, h0, h1⟩ := h
    refine ⟨caps 2, ?_⟩
    have hn : repoNameRegex.numSubexp + 1 = 3 := by decide
    simp only [FindStringSubmatch, hc, hn]
    simp [List.range_succ, h0, h1]

theorem repoName_eq_scan (p : List Char) : repoName p = (repoNameScan p).getD [] := by
  have h := FindStringSubmatch_repoNameRegex p
  cases hs : repoNameScan p with
  | none =>
    rw [hs] at h
    simp [repoName, h]
  | some r =>
    rw [hs] at h
    obtain ⟨e, he⟩ := h
    simp [repoName, he]

/-! ### Properties of the scan -/

theorem reEndpoint_isEndpoint (e : List Char) (h : reEndpoint e = true) : isEndpoint e = true := by
  simp only [reEndpoint, isEndpoint, Bool.or_eq_true, Bool.and_eq_true] at h ⊢
  tauto

theorem reEndpoint_no_newline (e : List Char) (h : reEndpoint e = true) : '\n' ∉ e := by
  simp only [reEndpoint, Bool.or_eq_true, Bool.and_eq_true, beq_iff_eq] at h
  rcases h with (((h | h) | h) | h) | ⟨h1, h2⟩
  · subst h; decide
  · subst h; decide
  · subst h; decide
  · subst h; decide
  · obtain ⟨t, rfl⟩ := List.isPrefixOf_iff_prefix.mp h1
    have : (List.drop 8 ("objects/".toList ++ t)) = t := by
      rw [List.drop_append_of_le_length] <;> simp
    rw [this] at h2
    simp at h2
    simp [h2]

theorem isEndpoint_reEndpoint (e : List Char) (h : isEndpoint e = true) (hn : '\n' ∉ e) :
    reEndpoint e = true := by
  simp only [reEndpoint, isEndpoint, Bool.or_eq_true, Bool.and_eq_true] at h ⊢
  rcases h with h | h
  · exact Or.inl h
  · refine Or.inr ⟨h, ?_⟩
    have : '\n' ∉ e.drop 8 := fun hm => hn (List.mem_of_mem_drop hm)
    simp [this]

theorem lazyScan_sound : ∀ (s r : List Char), lazyScan s = some r →
    ∃ e, s = r ++ '/' :: e ∧ reEndpoint e = true ∧ '\n' ∉ r := by
  intro s
  induction s with
  | nil => intro r h; simp [lazyScan] at h
  | cons x t ih =>
    intro r h
    rw [lazyScan] at h
    by_cases hx : x = '/' ∧ reEndpoint t = true
    · rw [if_pos hx] at h
      have hr : r = [] := by simpa using h.symm
      subst hr
      exact ⟨t, by simp [hx.1], hx.2, by simp⟩
    · rw [if_neg hx] at h
      by_cases hn : x = '\n'
      · simp [hn] at h
      · rw [if_neg hn] at h
        cases h1 : lazyScan t with
        | none => simp [h1] at h
        | some r1 =>
          obtain ⟨e, he, hre, hnl⟩ := ih r1 h1
          have hr : r = x :: r1 := by simpa [h1] using h.symm
          subst hr
          refine ⟨e, by simp [he], hre, ?_⟩
          intro hm
          rcases List.mem_cons.mp hm with hm | hm
          · exact hn hm.symm
          · exact hnl hm

theorem lazyScan_complete : ∀ (s r e : List Char), s = r ++ '/' :: e → reEndpoint e = true →
    '\n' ∉ r → ∃ r0, lazyScan s = some r0 ∧ r0.length ≤ r.length := by
  intro s
  induction s with
  | nil => intro r e h; simp at h
  | cons x t ih =>
    intro r e h he hn
    rw [lazyScan]
    by_cases hx : x = '/' ∧ reEndpoint t = true
    · exact ⟨[], by simp [hx], by simp⟩
    · rw [if_neg hx]
      cases r with
      | nil =>
        simp at h
        exact absurd ⟨h.1, h.2 ▸ he⟩ hx
      | cons y r1 =>
        simp at h
        obtain ⟨hxy, ht⟩ := h
        have hy : ¬ x = '\n' := by
          intro hc
          apply hn
          simp [← hxy, hc]
        have hn1 : '\n' ∉ r1 := fun hm => hn (List.mem_cons_of_mem _ hm)
        obtain ⟨r0, h0, hlen⟩ := ih r1 e ht he hn1
        rw [if_neg hy, h0]
        exact ⟨x :: r0, rfl, by simpa using hlen⟩

theorem lazyScan_minimal : ∀ (s r : List Char), lazyScan s = some r →
    ∀ r1 e1, s = r1 ++ '/' :: e1 → reEndpoint e1 = true → r.length ≤ r1.length := by
  intro s
  induction s with
  | nil => intro r h; simp [lazyScan] at h
  | cons x t ih =>
    intro r h r1 e1 hs he
    rw [lazyScan] at h
    by_cases hx : x = '/' ∧ reEndpoint t = true
    · rw [if_pos hx] at h
      have hr : r = [] := by simpa using h.symm
      simp [hr]
    · rw [if_neg hx] at h
      by_cases hn : x = '\n'
      · simp [hn] at h
      · rw [if_neg hn] at h
        cases h1 : lazyScan t with
        | none => simp [h1] at h
        | some r0 =>
          have hr : r = x :: r0 := by simpa [h1] using h.symm
          subst hr
          cases r1 with
          | nil =>
            simp at hs
            exact absurd ⟨hs.1, hs.2 ▸ he⟩ hx
          | cons y r2 =>
            simp at hs
            have := ih r0 h1 r2 e1 hs.2 he
            simpa using this

theorem hasSplit_of_split : ∀ (r e : List Char), isEndpoint e = true →
    hasSplit (r ++ '/' :: e) = true := by
  intro r
  induction r with
  | nil => intro e he; simp [hasSplit, he]
  | cons x r ih => intro e he; simp [hasSplit, ih e he]

theorem repoNameScan_some (p r : List Char) (h : repoNameScan p = some r) :
    ∃ s e, (s = [] ∨ s = ['/']) ∧ p = s ++ r ++ '/' :: e ∧ reEndpoint e = true ∧ '\n' ∉ r
      ∧ lazyScan (r ++ '/' :: e) = some r
      ∧ (s = [] → ∀ t, p = '/' :: t → lazyScan t = none) := by
  cases p with
  | nil => simp [repoNameScan] at h
  | cons x t =>
    rw [repoNameScan] at h
    by_cases hx : x = '/'
    · rw [if_pos hx] at h
      cases h1 : lazyScan t with
      | some r1 =>
        rw [h1] at h
        have hr : r1 = r := by simpa using h
        subst hr
        obtain ⟨e, he, hre, hnl⟩ := lazyScan_sound t r1 h1
        refine ⟨['/'], e, Or.inr rfl, by simp [hx, he], hre, hnl, he ▸ h1, ?_⟩
        intro hs
        simp at hs
      | none =>
        rw [h1] at h
        obtain ⟨e, he, hre, hnl⟩ := lazyScan_sound (x :: t) r h
        refine ⟨[], e, Or.inl rfl, by simp [he], hre, hnl, he ▸ h, ?_⟩
        intro _ t1 ht1
        have : t = t1 := by simpa using (List.cons.inj ht1).2
        rw [← this]
        exact h1
    · rw [if_neg hx] at h
      obtain ⟨e, he, hre, hnl⟩ := lazyScan_sound (x :: t) r h
      refine ⟨[], e, Or.inl rfl, by simp [he], hre, hnl, he ▸ h, ?_⟩
      intro _ t1 ht1
      exact absurd (List.cons.inj ht1).1 hx

theorem repoNameScan_none_of_no_split (p : List Char)
    (h : ¬ ∃ s r e, (s = [] ∨ s = ['/']) ∧ isEndpoint e = true ∧ p = s ++ r ++ '/' :: e) :
    repoNameScan p = none := by
  cases hs : repoNameScan p with
  | none => rfl
  | some r =>
    exfalso
    obtain ⟨s, e, hs1, hp, hre, _, _, _⟩ := repoNameScan_some p r hs
    exact h ⟨s, r, e, hs1, reEndpoint_isEndpoint e hre, hp⟩

/-- C10: a path that cannot be written as `s + r + "/" + e`, with `s` empty or
`/` and `e` a recognized endpoint (`HEAD`, `git-upload-pack`,
`git-receive-pack`, `info/refs`, or a string beginning with `objects/`), has no
match: `FindStringSubmatch` returns nil, so `repoName` takes its `matches == nil`
branch, never indexes the slice, and returns the empty string. -/
theorem C10_repoName_no_route (p : List Char)
    (h : ¬ ∃ s r e, (s = [] ∨ s = ['/']) ∧ isEndpoint e = true ∧ p = s ++ r ++ '/' :: e) :
    FindStringSubmatch repoNameRegex p = none ∧ repoName p = [] := by
  have hs := repoNameScan_none_of_no_split p h
  have hf := FindStringSubmatch_repoNameRegex p
  rw [hs] at hf
  exact ⟨hf, by rw [repoName_eq_scan, hs]; rfl⟩

theorem no_split_of_hasSplit (p : List Char) (h1 : hasSplit p = false)
    (h2 : hasSplit (p.drop 1) = false) :
    ¬ ∃ s r e, (s = [] ∨ s = ['/']) ∧ isEndpoint e = true ∧ p = s ++ r ++ '/' :: e := by
  rintro ⟨s, r, e, hs | hs, he, hp⟩
  · subst hs
    have := hasSplit_of_split r e he
    simp at hp
    rw [← hp, h1] at this
    exact Bool.noConfusion this
  · subst hs
    have := hasSplit_of_split r e he
    have hd : p.drop 1 = r ++ '/' :: e := by simp [hp]
    rw [← hd, h2] at this
    exact Bool.noConfusion this

/-- C10 at the path `/foo/bar`: it has no recognized endpoint, and `repoName`
returns the empty string. -/
theorem C10_repoName_no_route_witness :
    (¬ ∃ s r e, (s = [] ∨ s = ['/']) ∧ isEndpoint e = true
        ∧ "/foo/bar".toList = s ++ r ++ '/' :: e)
      ∧ FindStringSubmatch repoNameRegex "/foo/bar".toList = none
      ∧ repoName "/foo/bar".toList = [] :=
  ⟨no_split_of_hasSplit _ (by decide) (by decide),
   C10_repoName_no_route "/foo/bar".toList (no_split_of_hasSplit _ (by decide) (by decide))⟩

theorem repoNameScan_of_shape (p : List Char) (hnl : '\n' ∉ p)
    (hshape : ∃ s r e, (s = [] ∨ s = ['/']) ∧ isEndpoint e = true ∧ p = s ++ r ++ '/' :: e) :
    ∃ r0, repoNameScan p = some r0 := by
  obtain ⟨s, r, e, hs, he, hp⟩ := hshape
  have hen : '\n' ∉ e := by
    intro hm
    apply hnl
    rw [hp]
    simp [hm]
  have hrn : '\n' ∉ r := by
    intro hm
    apply hnl
    rw [hp]
    simp [hm]
  have hre := isEndpoint_reEndpoint e he hen
  obtain ⟨r0, h0, _⟩ := lazyScan_complete (r ++ '/' :: e) r e rfl hre hrn
  rcases hs with hs | hs
  · subst hs
    have hp1 : p = r ++ '/' :: e := by simpa using hp
    rw [hp1]
    cases hq : r ++ '/' :: e with
    | nil => simp at hq
    | cons x t =>
      rw [hq] at h0
      rw [repoNameScan]
      by_cases hx : x = '/'
      · rw [if_pos hx]
        cases h1 : lazyScan t with
        | some r1 => exact ⟨r1, rfl⟩
        | none => exact ⟨r0, h0⟩
      · rw [if_neg hx]
        exact ⟨r0, h0⟩
  · subst hs
    have hp1 : p = '/' :: (r ++ '/' :: e) := by simpa using hp
    rw [hp1, repoNameScan, if_pos rfl, h0]
    exact ⟨r0, rfl⟩

/-- C9 as stated fails: on `/a/objects/b/info/refs` the pattern matches, the
last position where a slash followed by a recognized endpoint runs to the end of
the path is before `/info/refs`, which would make the repository
`a/objects/b`, and `repoName` returns `a`.  And a path with a line feed that
has a route shape is not matched at all: the last-position rule gives the
repository with the line feed, `repoName` the empty string. -/
theorem C9_last_split_counterexample :
    FindStringSubmatch repoNameRegex "/a/objects/b/info/refs".toList ≠ none
      ∧ repoNameLastSplit "/a/objects/b/info/refs".toList = "a/objects/b".toList
      ∧ repoName "/a/objects/b/info/refs".toList = "a".toList
      ∧ repoName "/a/objects/b/info/refs".toList
          ≠ repoNameLastSplit "/a/objects/b/info/refs".toList
      ∧ repoNameLastSplit (['/', 'a', '\n', 'b'] ++ "/info/refs".toList) = ['a', '\n', 'b']
      ∧ repoName (['/', 'a', '\n', 'b'] ++ "/info/refs".toList) = [] := by
  decide

/-- C9, amended: for every path that contains no line feed and has a recognized
route shape (it can be written as `s + r + "/" + e` with `s` empty or `/` and
`e` a recognized endpoint), the pattern matches and the path is
`s + r + "/" + e` with `r` the value of `repoName`, `e` a recognized endpoint
and `s` empty or `/`; `r` is the shortest string with such a decomposition for
that `s` (the split is at the first position after `s`, not the last, where a
slash followed by a recognized endpoint runs to the end of the path); and `s`
is empty only when the path has no such decomposition with `s = "/"`. -/
theorem C9_repoName_first_split (p : List Char) (hnl : '\n' ∉ p)
    (hshape : ∃ s r e, (s = [] ∨ s = ['/']) ∧ isEndpoint e = true ∧ p = s ++ r ++ '/' :: e) :
    FindStringSubmatch repoNameRegex p ≠ none
      ∧ ∃ s e, (s = [] ∨ s = ['/']) ∧ isEndpoint e = true ∧ p = s ++ repoName p ++ '/' :: e
        ∧ (∀ r1 e1, isEndpoint e1 = true → p = s ++ r1 ++ '/' :: e1 →
            (repoName p).length ≤ r1.length)
        ∧ (s = [] → ∀ r1 e1, isEndpoint e1 = true → p ≠ '/' :: r1 ++ '/' :: e1) := by
  have hf := FindStringSubmatch_repoNameRegex p
  obtain ⟨r, hs⟩ := repoNameScan_of_shape p hnl hshape
  rw [hs] at hf
  refine ⟨?_, ?_⟩
  · obtain ⟨e, he⟩ := hf
    rw [he]
    exact Option.noConfusion
  · have hr : repoName p = r := by rw [repoName_eq_scan, hs]; rfl
    obtain ⟨s, e, hs1, hp, hre, hnl, hscan, hslash⟩ := repoNameScan_some p r hs
    have hne := reEndpoint_no_newline e hre
    have hsn : '\n' ∉ s := by
      rcases hs1 with h | h <;> subst h <;> decide
    have hpn : '\n' ∉ p := by
      rw [hp]
      simp only [List.mem_append, List.mem_cons, not_or]
      exact ⟨⟨hsn, hnl⟩, by decide, hne⟩
    rw [hr]
    refine ⟨s, e, hs1, reEndpoint_isEndpoint e hre, hp, ?_, ?_⟩
    · intro r1 e1 he1 hp1
      have he1n : '\n' ∉ e1 := by
        intro hmem
        apply hpn
        rw [hp1]
        simp [hmem]
      have hre1 := isEndpoint_reEndpoint e1 he1 he1n
      have heq : r ++ '/' :: e = r1 ++ '/' :: e1 := by
        have h2 := hp.symm.trans hp1
        simp only [List.append_assoc] at h2
        exact List.append_cancel_left h2
      exact lazyScan_minimal _ r hscan r1 e1 heq hre1
    · intro hs0 r1 e1 he1 hp1
      have hmem : ∀ c, c ∈ r1 ++ '/' :: e1 → c ∈ p := by
        intro c hc
        rw [hp1]
        exact List.mem_cons_of_mem _ hc
      have he1n : '\n' ∉ e1 := fun hc => hpn (hmem _ (by simp [hc]))
      have hr1n : '\n' ∉ r1 := fun hc => hpn (hmem _ (by simp [hc]))
      have hre1 := isEndpoint_reEndpoint e1 he1 he1n
      obtain ⟨r0, h0, _⟩ := lazyScan_complete _ r1 e1 rfl hre1 hr1n
      have hnone := hslash hs0 (r1 ++ '/' :: e1) (by simpa using hp1)
      rw [hnone] at h0
      exact Option.noConfusion h0

/-- C9, amended, at `/a/objects/b/info/refs`: the path has no line feed and a
route shape, the pattern matches and the decomposition has `repoName` equal to
`a`. -/
theorem C9_repoName_first_split_witness :
    FindStringSubmatch repoNameRegex "/a/objects/b/info/refs".toList ≠ none
      ∧ ∃ s e, (s = [] ∨ s = ['/']) ∧ isEndpoint e = true
        ∧ "/a/objects/b/info/refs".toList
            = s ++ repoName "/a/objects/b/info/refs".toList ++ '/' :: e
        ∧ (∀ r1 e1, isEndpoint e1 = true →
            "/a/objects/b/info/refs".toList = s ++ r1 ++ '/' :: e1 →
            (repoName "/a/objects/b/info/refs".toList).length ≤ r1.length)
        ∧ (s = [] → ∀ r1 e1, isEndpoint e1 = true →
            "/a/objects/b/info/refs".toList ≠ '/' :: r1 ++ '/' :: e1) :=
  C9_repoName_first_split "/a/objects/b/info/refs".toList (by decide)
    ⟨['/'], "a/objects/b".toList, "info/refs".toList, Or.inr rfl, by decide, by decide⟩

theorem prefix_through_slash (u : List Char) : ∀ (l x : List Char), '/' ∉ l →
    l ++ ['/'] <+: x ++ '/' :: u → l ++ ['/'] <+: x ++ ['/'] := by
  intro l
  induction l with
  | nil =>
    intro x _ h
    cases x with
    | nil => simp
    | cons a x =>
      simp only [List.nil_append, List.cons_append, List.cons_prefix_cons] at h ⊢
      exact ⟨h.1, List.nil_prefix⟩
  | cons c l ih =>
    intro x hc h
    cases x with
    | nil =>
      simp only [List.nil_append, List.cons_append, List.cons_prefix_cons] at h
      exact absurd (by simp [h.1]) hc
    | cons a x =>
      simp only [List.cons_append, List.cons_prefix_cons] at h ⊢
      exact ⟨h.1, ih x (fun hm => hc (List.mem_cons_of_mem _ hm)) h.2⟩

theorem endpoint_before_info_refs (x : List Char)
    (h : reEndpoint (x ++ "/info/refs".toList) = true) :
    "objects/".toList <+: x ++ ['/'] := by
  simp only [reEndpoint, Bool.or_eq_true, Bool.and_eq_true, beq_iff_eq] at h
  rcases h with (((h | h) | h) | h) | ⟨h1, _⟩
  · have := congrArg List.reverse h; simp at this
  · have := congrArg List.reverse h; simp at this
  · have := congrArg List.reverse h; simp at this
  · have := congrArg List.length h; simp at this
  · have hp := List.isPrefixOf_iff_prefix.mp h1
    exact prefix_through_slash "info/refs".toList "objects".toList x (by decide) hp

/-- C8 as stated fails: for the repository identifier `a/objects/b` the path
`/a/objects/b/info/refs` gives `a`; and for an identifier with a line feed the
pattern does not match and the result is empty. -/
theorem C8_info_refs_counterexample :
    repoName ("/".toList ++ "a/objects/b".toList ++ "/info/refs".toList) = "a".toList
      ∧ repoName ("/".toList ++ "a/objects/b".toList ++ "/info/refs".toList)
          ≠ "a/objects/b".toList
      ∧ repoName ("/".toList ++ ['a', '\n', 'b'] ++ "/info/refs".toList) = []
      ∧ repoName ("/".toList ++ ['a', '\n', 'b'] ++ "/info/refs".toList) ≠ ['a', '\n', 'b'] := by
  decide

/-- C8, amended: for every repository identifier `repo` (embedded slashes
included) that contains no line feed and in which `/objects/` does not occur in
`repo + "/"`, `repoName` applied to `"/" + repo + "/info/refs"` returns exactly
`repo`. -/
theorem C8_repoName_info_refs (repo : List Char) (hnl : '\n' ∉ repo)
    (hobj : ¬ "/objects/".toList <:+: repo ++ ['/']) :
    repoName ("/".toList ++ repo ++ "/info/refs".toList) = repo := by
  have hcomp := lazyScan_complete (repo ++ "/info/refs".toList) repo "info/refs".toList rfl
    (by decide) hnl
  obtain ⟨r0, h0, hlen⟩ := hcomp
  obtain ⟨e0, he0, hre0, _⟩ := lazyScan_sound _ r0 h0
  have hr0 : r0 = repo := by
    rcases List.append_eq_append_iff.mp he0 with ⟨a, ha, _⟩ | ⟨c, hc, hc2⟩
    · have hl := congrArg List.length ha
      simp at hl
      have ha0 : a = [] := List.length_eq_zero.mp (by omega)
      simp [ha, ha0]
    · cases c with
      | nil => simp at hc; exact hc.symm
      | cons y x =>
        exfalso
        simp only [String.toList, List.cons_append, List.cons.injEq] at hc2
        obtain ⟨hy, hx⟩ := hc2
        have hre : reEndpoint (x ++ "/info/refs".toList) = true := by
          rw [← hre0, hx]; rfl
        have hp := endpoint_before_info_refs x hre
        apply hobj
        obtain ⟨v, hv⟩ := hp
        refine ⟨r0, v, ?_⟩
        rw [hc, ← hy]
        simp only [String.toList, List.append_assoc, List.cons_append, List.nil_append] at hv ⊢
        rw [← hv]
  have hscan : repoNameScan ("/".toList ++ repo ++ "/info/refs".toList) = some repo := by
    show repoNameScan ('/' :: (repo ++ "/info/refs".toList)) = some repo
    rw [repoNameScan, if_pos rfl, h0, hr0]
  rw [repoName_eq_scan, hscan]
  rfl

/-- C8, amended, at the two identifiers of the specification:
`/org/project/info/refs` gives `org/project` and `/some_repo.git/info/refs`
gives `some_repo.git`. -/
theorem C8_repoName_info_refs_witness :
    repoName "/org/project/info/refs".toList = "org/project".toList
      ∧ repoName "/some_repo.git/info/refs".toList = "some_repo.git".toList :=
  ⟨C8_repoName_info_refs "org/project".toList (by decide) (by decide),
   C8_repoName_info_refs "some_repo.git".toList (by decide) (by decide)⟩

/-! ## The gate -/

theorem Request.parseForm_parseForm (r : Request) : r.parseForm.parseForm = r.parseForm := by
  unfold Request.parseForm
  cases h : r.fields.Form with
  | some f => simp [h]
  | none => simp

theorem Request.Form_parseForm (r : Request) : r.parseForm.Form = r.Form := by
  unfold Request.parseForm Request.Form
  cases h : r.fields.Form with
  | some f => simp [h]
  | none => simp

theorem Request.URLPath_parseForm (r : Request) : r.parseForm.URLPath = r.URLPath := by
  unfold Request.parseForm
  cases h : r.fields.Form <;> rfl

theorem isService_parseForm (service : List Char) (r : Request) :
    isService service r.parseForm = isService service r := by
  unfold isService getServiceType Request.FormValue
  rw [Request.Form_parseForm, Request.URLPath_parseForm]

theorem buildInfo_eq (u p : List Char) (req : Request) :
    buildInfo u p req
      = { Username := u, Password := p, Repo := repoName req.URLPath,
          Push := isPush req, Fetch := isFetch req, Request := req.parseForm } := by
  unfold buildInfo isFetch
  rw [isService_parseForm, Request.parseForm_parseForm]

theorem http_Error_of_valid (w : ResponseWriter) (msg : List Char) (code : Int)
    (h : 100 ≤ code ∧ code ≤ 999) :
    http.Error w msg code
      = w ++ [WriterCall.headerDel "Content-Length".toList,
          WriterCall.headerSet "Content-Type".toList "text/plain; charset=utf-8".toList,
          WriterCall.headerSet "X-Content-Type-Options".toList "nosniff".toList,
          WriterCall.writeHeader code,
          WriterCall.write (msg ++ ['\n'])] := by
  have hno : ¬ ((respond w).wroteHeader = false ∧ (code < 100 ∨ 999 < code)) := by
    rintro ⟨_, h1 | h1⟩ <;> omega
  unfold http.Error
  simp only [hno, if_false, List.append_assoc, List.cons_append, List.nil_append]

theorem Authenticator_no_credentials {σ : Type} (authf : AuthFunc σ) (handler : Handler σ)
    (w : ResponseWriter) (req : Request) (st : World σ) (hb : req.BasicAuth = none) :
    Authenticator authf handler w req st
      = (http.Error
          (w ++ [WriterCall.headerSet "WWW-Authenticate".toList
                  "Basic realm=\"git server\"".toList])
          "request header has no authorization header".toList http.StatusUnauthorized, st) := by
  unfold Authenticator Authenticator.ServeHTTP
  rw [hb]

theorem Authenticator_error {σ : Type} (authf : AuthFunc σ) (handler : Handler σ)
    (w : ResponseWriter) (req : Request) (st : World σ) (u p : List Char) (err : GoError)
    (hb : req.BasicAuth = some (u, p))
    (he : (authf (buildInfo u p req) st.ext).1.2 = some err) :
    Authenticator authf handler w req st
      = (http.Error w err.Error
          (match err.StatusCode with
            | some c => c
            | none => http.StatusInternalServerError),
         { ext := (authf (buildInfo u p req) st.ext).2.1
           authfCalls := st.authfCalls ++ [buildInfo u p req]
           handlerCalls := st.handlerCalls }) := by
  unfold Authenticator Authenticator.ServeHTTP
  rw [hb]
  simp only [World.spyAuth, he]

theorem Authenticator_denied {σ : Type} (authf : AuthFunc σ) (handler : Handler σ)
    (w : ResponseWriter) (req : Request) (st : World σ) (u p : List Char)
    (hb : req.BasicAuth = some (u, p))
    (he : (authf (buildInfo u p req) st.ext).1.2 = none)
    (ha : (authf (buildInfo u p req) st.ext).1.1 = false) :
    Authenticator authf handler w req st
      = (http.Error w "Forbidden".toList http.StatusForbidden,
         { ext := (authf (buildInfo u p req) st.ext).2.1
           authfCalls := st.authfCalls ++ [buildInfo u p req]
           handlerCalls := st.handlerCalls }) := by
  unfold Authenticator Authenticator.ServeHTTP
  rw [hb]
  simp [World.spyAuth, he, ha]

theorem Authenticator_granted {σ : Type} (authf : AuthFunc σ) (handler : Handler σ)
    (w : ResponseWriter) (req : Request) (st : World σ) (u p : List Char)
    (hb : req.BasicAuth = some (u, p))
    (he : (authf (buildInfo u p req) st.ext).1.2 = none)
    (ha : (authf (buildInfo u p req) st.ext).1.1 = true) :
    Authenticator authf handler w req st
      = ((handler w (authf (buildInfo u p req) st.ext).2.2
            (authf (buildInfo u p req) st.ext).2.1).1,
         { ext := (handler w (authf (buildInfo u p req) st.ext).2.2
              (authf (buildInfo u p req) st.ext).2.1).2
           authfCalls := st.authfCalls ++ [buildInfo u p req]
           handlerCalls := st.handlerCalls ++ [(w, (authf (buildInfo u p req) st.ext).2.2)] }) := by
  unfold Authenticator Authenticator.ServeHTTP
  rw [hb]
  simp [World.spyAuth, World.spyHandler, he, ha]

/-- C1: the handler built by `Authenticator` invokes the downstream handler
exactly once when the request carries parseable Basic-Auth credentials and the
decision function returns `authorized = true` with no error, and zero times in
every other case.  The record is the one the spy on the handler keeps; the
state of the collaborators is, in the first case, what one run of the handler
makes of the state the decision function left, and in every other case that
state untouched. -/
theorem C1_handler_invoked_iff_granted {σ : Type} (authf : AuthFunc σ) (handler : Handler σ)
    (w : ResponseWriter) (req : Request) (st : World σ) :
    (Authenticator authf handler w req st).2.handlerCalls
        = st.handlerCalls
          ++ (if granted authf req st.ext = true
              then [(w, decidedRequest authf req st.ext)] else [])
      ∧ (Authenticator authf handler w req st).2.ext
        = (if granted authf req st.ext = true
            then (handler w (decidedRequest authf req st.ext)
                    (decidedState authf req st.ext)).2
            else decidedState authf req st.ext) := by
  cases hb : req.BasicAuth with
  | none =>
    simp [Authenticator_no_credentials authf handler w req st hb, granted, decidedState, hb]
  | some cred =>
    obtain ⟨u, p⟩ := cred
    cases he : (authf (buildInfo u p req) st.ext).1.2 with
    | some err =>
      simp [Authenticator_error authf handler w req st u p err hb he, granted, decidedState,
        hb, he]
    | none =>
      cases ha : (authf (buildInfo u p req) st.ext).1.1 with
      | false =>
        simp [Authenticator_denied authf handler w req st u p hb he ha, granted, decidedState,
          hb, he, ha]
      | true =>
        simp [Authenticator_granted authf handler w req st u p hb he ha, granted, decidedState,
          decidedRequest, hb, he, ha]

theorem drop_http_Error (w : ResponseWriter) (pre : List WriterCall) (msg : List Char)
    (code : Int) (h : 100 ≤ code ∧ code ≤ 999) :
    (http.Error (w ++ pre) msg code).drop w.length
      = pre ++ [WriterCall.headerDel "Content-Length".toList,
          WriterCall.headerSet "Content-Type".toList "text/plain; charset=utf-8".toList,
          WriterCall.headerSet "X-Content-Type-Options".toList "nosniff".toList,
          WriterCall.writeHeader code,
          WriterCall.write (msg ++ ['\n'])] := by
  rw [http_Error_of_valid _ _ _ h]
  simp [List.append_assoc]

/-- C2: for a request whose Basic-Auth header is absent or malformed, the gate
answers with status 401 and the header `WWW-Authenticate` equal to
`Basic realm="git server"`, and calls neither the decision function nor the
downstream handler.  The calls it makes on the writer are listed in full. -/
theorem C2_no_credentials_unauthorized {σ : Type} (authf : AuthFunc σ) (handler : Handler σ)
    (w : ResponseWriter) (req : Request) (st : World σ) (hb : req.BasicAuth = none) :
    (Authenticator authf handler w req st).1 = w ++ gateCalls authf handler w req st
      ∧ gateCalls authf handler w req st
          = [WriterCall.headerSet "WWW-Authenticate".toList "Basic realm=\"git server\"".toList,
             WriterCall.headerDel "Content-Length".toList,
             WriterCall.headerSet "Content-Type".toList "text/plain; charset=utf-8".toList,
             WriterCall.headerSet "X-Content-Type-Options".toList "nosniff".toList,
             WriterCall.writeHeader 401,
             WriterCall.write "request header has no authorization header\n".toList]
      ∧ (respond (gateCalls authf handler w req st)).wroteHeader = true
      ∧ (respond (gateCalls authf handler w req st)).status = 401
      ∧ (respond (gateCalls authf handler w req st)).headerGet "WWW-Authenticate".toList
          = some "Basic realm=\"git server\"".toList
      ∧ (Authenticator authf handler w req st).2.authfCalls = st.authfCalls
      ∧ (Authenticator authf handler w req st).2.handlerCalls = st.handlerCalls := by
  have hcalls : gateCalls authf handler w req st
      = [WriterCall.headerSet "WWW-Authenticate".toList "Basic realm=\"git server\"".toList,
         WriterCall.headerDel "Content-Length".toList,
         WriterCall.headerSet "Content-Type".toList "text/plain; charset=utf-8".toList,
         WriterCall.headerSet "X-Content-Type-Options".toList "nosniff".toList,
         WriterCall.writeHeader 401,
         WriterCall.write "request header has no authorization header\n".toList] := by
    rw [gateCalls, Authenticator_no_credentials authf handler w req st hb,
      drop_http_Error _ _ _ _ (by decide)]
    rfl
  refine ⟨?_, hcalls, ?_, ?_, ?_, ?_, ?_⟩
  · rw [hcalls, Authenticator_no_credentials authf handler w req st hb]
    rw [http_Error_of_valid _ _ _ (by decide)]
    simp [http.StatusUnauthorized]
  · rw [hcalls]; decide
  · rw [hcalls]; decide
  · rw [hcalls]; decide
  · rw [Authenticator_no_credentials authf handler w req st hb]
  · rw [Authenticator_no_credentials authf handler w req st hb]

/-- C2 at a request without an `Authorization` header, a decision function that
would grant and a fresh writer. -/
theorem C2_no_credentials_unauthorized_witness :
    reqAnonymous.BasicAuth = none
      ∧ (respond (gateCalls (constAuth true none) okHandler [] reqAnonymous World.init)).status
          = 401
      ∧ (Authenticator (constAuth true none) okHandler [] reqAnonymous World.init).2.authfCalls
          = []
      ∧ (Authenticator (constAuth true none) okHandler [] reqAnonymous World.init).2.handlerCalls
          = [] :=
  have h := C2_no_credentials_unauthorized (constAuth true none) okHandler [] reqAnonymous
    World.init rfl
  ⟨rfl, h.2.2.2.1, h.2.2.2.2.2.1, h.2.2.2.2.2.2⟩


theorem gateCalls_http_Error (w : ResponseWriter) (msg : List Char) (code : Int)
    (h : 100 ≤ code ∧ code ≤ 999) :
    (http.Error w msg code).drop w.length
      = [WriterCall.headerDel "Content-Length".toList,
          WriterCall.headerSet "Content-Type".toList "text/plain; charset=utf-8".toList,
          WriterCall.headerSet "X-Content-Type-Options".toList "nosniff".toList,
          WriterCall.writeHeader code,
          WriterCall.write (msg ++ ['\n'])] := by
  have h1 := drop_http_Error w [] msg code h
  simpa using h1

theorem canonical_content_length :
    textproto.CanonicalMIMEHeaderKey "Content-Length".toList = "Content-Length".toList := by
  decide

theorem canonical_content_type :
    textproto.CanonicalMIMEHeaderKey "Content-Type".toList = "Content-Type".toList := by
  decide

theorem canonical_nosniff :
    textproto.CanonicalMIMEHeaderKey "X-Content-Type-Options".toList
      = "X-Content-Type-Options".toList := by
  decide

theorem respond_http_Error_final (msg : List Char) (code : Int)
    (h : code = 101 ∨ (200 ≤ code ∧ code ≤ 999)) :
    respond [WriterCall.headerDel "Content-Length".toList,
        WriterCall.headerSet "Content-Type".toList "text/plain; charset=utf-8".toList,
        WriterCall.headerSet "X-Content-Type-Options".toList "nosniff".toList,
        WriterCall.writeHeader code,
        WriterCall.write (msg ++ ['\n'])]
      = { wroteHeader := true, status := code,
          header := [("X-Content-Type-Options".toList, "nosniff".toList),
                     ("Content-Type".toList, "text/plain; charset=utf-8".toList)],
          body := if bodyAllowedForStatus code = true then msg ++ ['\n'] else [],
          interim := [], panicked := false } := by
  have h1 : ¬ (code < 100 ∨ 999 < code) := by
    rcases h with h | h <;> omega
  have h2 : ¬ (code ≤ 199 ∧ code ≠ 101) := by
    rcases h with h | h <;> omega
  simp only [respond, List.foldl, Response.apply, Response.fresh, canonical_content_length,
    canonical_content_type, canonical_nosniff, h1, h2]
  by_cases hb : bodyAllowedForStatus code = true
  · simp [hb]
  · simp [hb]

theorem respond_http_Error_interim (msg : List Char) (code : Int)
    (h : 100 ≤ code ∧ code ≤ 199 ∧ code ≠ 101) :
    respond [WriterCall.headerDel "Content-Length".toList,
        WriterCall.headerSet "Content-Type".toList "text/plain; charset=utf-8".toList,
        WriterCall.headerSet "X-Content-Type-Options".toList "nosniff".toList,
        WriterCall.writeHeader code,
        WriterCall.write (msg ++ ['\n'])]
      = { wroteHeader := true, status := 200,
          header := [("X-Content-Type-Options".toList, "nosniff".toList),
                     ("Content-Type".toList, "text/plain; charset=utf-8".toList)],
          body := msg ++ ['\n'],
          interim := [code], panicked := false } := by
  have h1 : ¬ (code < 100 ∨ 999 < code) := by omega
  have h2 : code ≤ 199 ∧ code ≠ 101 := ⟨h.2.1, h.2.2⟩
  have h3 : bodyAllowedForStatus 200 = true := by decide
  simp only [respond, List.foldl, Response.apply, Response.fresh, canonical_content_length,
    canonical_content_type, canonical_nosniff, h1, h2]
  have h4 : ¬ code = 101 := h.2.2
  simp [h3, h4]

/-- C3 as stated fails.  For an error that reports 42 the call `WriteHeader(42)`
panics and no response is written; for one that reports 103 the server sends an
interim 103 and the final status is 200. -/
theorem C3_status_counterexample :
    (respond (gateCalls (constAuth false (some (statusErr "no".toList 42))) okHandler []
        reqAlice World.init)).panicked = true
      ∧ (respond (gateCalls (constAuth false (some (statusErr "no".toList 42))) okHandler []
        reqAlice World.init)).wroteHeader = false
      ∧ (respond (gateCalls (constAuth false (some (statusErr "no".toList 103))) okHandler []
        reqAlice World.init)).status = 200
      ∧ (respond (gateCalls (constAuth false (some (statusErr "no".toList 103))) okHandler []
        reqAlice World.init)).status ≠ 103 := by
  decide

/-- C3, amended: when the request has credentials and the decision function
returns an error, the final status of the response is the integer `S` the error
reports when it exposes a status code that is a final status the server
accepts (`S = 101` or `200 ≤ S ≤ 999`; 418 is one), and 500 when it exposes
none; the value of `authorized` returned with the error plays no part, and the
downstream handler is not called. -/
theorem C3_error_status {σ : Type} (authf : AuthFunc σ) (handler : Handler σ)
    (w : ResponseWriter) (req : Request) (st : World σ) (u p : List Char)
    (authorized : Bool) (err : GoError)
    (hb : req.BasicAuth = some (u, p))
    (hres : (authf (buildInfo u p req) st.ext).1 = (authorized, some err))
    (hcode : ∀ S, err.StatusCode = some S → S = 101 ∨ (200 ≤ S ∧ S ≤ 999)) :
    (respond (gateCalls authf handler w req st)).wroteHeader = true
      ∧ (respond (gateCalls authf handler w req st)).panicked = false
      ∧ (respond (gateCalls authf handler w req st)).status
          = (match err.StatusCode with
              | some S => S
              | none => 500)
      ∧ (Authenticator authf handler w req st).1
          = w ++ [WriterCall.headerDel "Content-Length".toList,
              WriterCall.headerSet "Content-Type".toList "text/plain; charset=utf-8".toList,
              WriterCall.headerSet "X-Content-Type-Options".toList "nosniff".toList,
              WriterCall.writeHeader (match err.StatusCode with
                | some S => S
                | none => 500),
              WriterCall.write (err.Error ++ ['\n'])]
      ∧ (Authenticator authf handler w req st).2.handlerCalls = st.handlerCalls := by
  have he : (authf (buildInfo u p req) st.ext).1.2 = some err := by rw [hres]
  have hA := Authenticator_error authf handler w req st u p err hb he
  have hfinal : (match err.StatusCode with
      | some c => c
      | none => http.StatusInternalServerError) = 101
      ∨ (200 ≤ (match err.StatusCode with
          | some c => c
          | none => http.StatusInternalServerError)
        ∧ (match err.StatusCode with
          | some c => c
          | none => http.StatusInternalServerError) ≤ 999) := by
    cases hs : err.StatusCode with
    | none => right; decide
    | some S => exact hcode S hs
  have hvalid : 100 ≤ (match err.StatusCode with
      | some c => c
      | none => http.StatusInternalServerError)
      ∧ (match err.StatusCode with
          | some c => c
          | none => http.StatusInternalServerError) ≤ 999 := by
    rcases hfinal with h | h
    · rw [h]; decide
    · exact ⟨by omega, h.2⟩
  refine ⟨?_, ?_, ?_, ?_, ?_⟩
  · rw [gateCalls, hA, gateCalls_http_Error _ _ _ hvalid, respond_http_Error_final _ _ hfinal]
  · rw [gateCalls, hA, gateCalls_http_Error _ _ _ hvalid, respond_http_Error_final _ _ hfinal]
  · rw [gateCalls, hA, gateCalls_http_Error _ _ _ hvalid, respond_http_Error_final _ _ hfinal]
    rfl
  · rw [hA, http_Error_of_valid _ _ _ hvalid]; rfl
  · rw [hA]

/-- C3, amended, at an error that exposes status 418 and comes with
`authorized = true`: the response status is 418 and the handler is not
called. -/
theorem C3_error_status_witness :
    (respond (gateCalls (constAuth true (some teapot)) okHandler [] reqAlice World.init)).status
        = 418
      ∧ (Authenticator (constAuth true (some teapot)) okHandler [] reqAlice
          World.init).2.handlerCalls = [] :=
  have h := C3_error_status (constAuth true (some teapot)) okHandler [] reqAlice World.init
    "alice".toList "s3cret".toList true teapot rfl rfl
    (fun S hS => Or.inr (by
      have h418 : S = 418 := by
        have := Option.some.inj hS
        exact this.symm
      rw [h418]; decide))
  ⟨h.2.2.1, h.2.2.2.2⟩

/-- C4: when the request has credentials and the decision function returns
`authorized = false` with no error, the gate answers with status 403 and does
not call the downstream handler; the calls it makes on the writer are those of
`http.Error(w, "Forbidden", 403)`, an expression in which neither the decision
function, nor its state, nor the request occurs. -/
theorem C4_denied_forbidden {σ : Type} (authf : AuthFunc σ) (handler : Handler σ)
    (w : ResponseWriter) (req : Request) (st : World σ) (u p : List Char)
    (hb : req.BasicAuth = some (u, p))
    (hres : (authf (buildInfo u p req) st.ext).1 = (false, none)) :
    (respond (gateCalls authf handler w req st)).wroteHeader = true
      ∧ (respond (gateCalls authf handler w req st)).status = 403
      ∧ (Authenticator authf handler w req st).1
          = w ++ [WriterCall.headerDel "Content-Length".toList,
              WriterCall.headerSet "Content-Type".toList "text/plain; charset=utf-8".toList,
              WriterCall.headerSet "X-Content-Type-Options".toList "nosniff".toList,
              WriterCall.writeHeader 403,
              WriterCall.write "Forbidden\n".toList]
      ∧ (Authenticator authf handler w req st).2.handlerCalls = st.handlerCalls := by
  have he : (authf (buildInfo u p req) st.ext).1.2 = none := by rw [hres]
  have ha : (authf (buildInfo u p req) st.ext).1.1 = false := by rw [hres]
  have hA := Authenticator_denied authf handler w req st u p hb he ha
  refine ⟨?_, ?_, ?_, ?_⟩
  · rw [gateCalls, hA, gateCalls_http_Error _ _ _ (by decide),
      respond_http_Error_final _ _ (by decide)]
  · rw [gateCalls, hA, gateCalls_http_Error _ _ _ (by decide),
      respond_http_Error_final _ _ (by decide)]
    rfl
  · rw [hA, http_Error_of_valid _ _ _ (by decide)]; rfl
  · rw [hA]

/-- C4 at a decision function that denies: status 403, handler not called. -/
theorem C4_denied_forbidden_witness :
    (respond (gateCalls (constAuth false none) okHandler [] reqAlice World.init)).status = 403
      ∧ (Authenticator (constAuth false none) okHandler [] reqAlice World.init).2.handlerCalls
          = [] :=
  have h := C4_denied_forbidden (constAuth false none) okHandler [] reqAlice World.init
    "alice".toList "s3cret".toList rfl rfl
  ⟨h.2.1, h.2.2.2⟩


theorem respondTo_of_not_head (req : Request) (calls : List WriterCall)
    (h : req.Method ≠ "HEAD".toList) : respondTo req calls = respond calls := by
  unfold respondTo
  rw [if_neg h]

theorem bodyAllowedForStatus_of_final (code : Int)
    (h : 200 ≤ code ∧ code ≠ 204 ∧ code ≠ 304) : bodyAllowedForStatus code = true := by
  unfold bodyAllowedForStatus
  have h1 : ¬ (100 ≤ code ∧ code ≤ 199) := by omega
  simp [h1, h.2.1, h.2.2]

theorem respond_http_Error_body (msg : List Char) (code : Int)
    (h : 100 ≤ code ∧ code ≤ 999 ∧ code ≠ 101 ∧ code ≠ 204 ∧ code ≠ 304) :
    (respond [WriterCall.headerDel "Content-Length".toList,
        WriterCall.headerSet "Content-Type".toList "text/plain; charset=utf-8".toList,
        WriterCall.headerSet "X-Content-Type-Options".toList "nosniff".toList,
        WriterCall.writeHeader code,
        WriterCall.write (msg ++ ['\n'])]).body = msg ++ ['\n'] := by
  by_cases hi : code ≤ 199
  · rw [respond_http_Error_interim msg code ⟨h.1, hi, h.2.2.1⟩]
  · have hf : code = 101 ∨ (200 ≤ code ∧ code ≤ 999) := Or.inr ⟨by omega, h.2.1⟩
    rw [respond_http_Error_final msg code hf,
      bodyAllowedForStatus_of_final code ⟨by omega, h.2.2.2.1, h.2.2.2.2⟩]
    rfl

/-- C5 as stated fails: `http.Error` prints the message with `fmt.Fprintln`, so
the body is the message followed by a line feed.  For an error with the message
`teapot` the body is not `teapot`, and on a denial it is not `Forbidden`.
Further, no body at all is sent in answer to a `HEAD` request, with a status
that allows none (204), or when the status code makes `WriteHeader` panic
(42). -/
theorem C5_body_counterexample :
    (respondTo reqAlice (gateCalls (constAuth false (some teapot)) okHandler [] reqAlice
        World.init)).body = "teapot\n".toList
      ∧ (respondTo reqAlice (gateCalls (constAuth false (some teapot)) okHandler [] reqAlice
          World.init)).body ≠ teapot.Error
      ∧ (respondTo reqAlice (gateCalls (constAuth false none) okHandler [] reqAlice
          World.init)).body = "Forbidden\n".toList
      ∧ (respondTo reqAlice (gateCalls (constAuth false none) okHandler [] reqAlice
          World.init)).body ≠ "Forbidden".toList
      ∧ (respondTo reqHead (gateCalls (constAuth false none) okHandler [] reqHead
          World.init)).body = []
      ∧ (respondTo reqAlice (gateCalls (constAuth false (some (statusErr "no".toList 204)))
          okHandler [] reqAlice World.init)).body = []
      ∧ (respondTo reqAlice (gateCalls (constAuth false (some (statusErr "no".toList 42)))
          okHandler [] reqAlice World.init)).body = [] := by
  decide

/-- C5, amended: for a request whose method is not `HEAD`, the body of the
response is the error's message text, unchanged, followed by one line feed when
the decision function returns an error whose status code, if it exposes one, is
between 100 and 999 and is not 101, 204 or 304; and it is the fixed text
`Forbidden` followed by one line feed when the decision function denies without
error. -/
theorem C5_body_message_line {σ : Type} (authf : AuthFunc σ) (handler : Handler σ)
    (w : ResponseWriter) (req : Request) (st : World σ) (u p : List Char)
    (hb : req.BasicAuth = some (u, p)) (hm : req.Method ≠ "HEAD".toList) :
    (∀ authorized err, (authf (buildInfo u p req) st.ext).1 = (authorized, some err) →
        (∀ S, err.StatusCode = some S →
          100 ≤ S ∧ S ≤ 999 ∧ S ≠ 101 ∧ S ≠ 204 ∧ S ≠ 304) →
        (respondTo req (gateCalls authf handler w req st)).body = err.Error ++ ['\n'])
      ∧ ((authf (buildInfo u p req) st.ext).1 = (false, none) →
        (respondTo req (gateCalls authf handler w req st)).body
          = "Forbidden".toList ++ ['\n']) := by
  constructor
  · intro authorized err hres hcode
    have he : (authf (buildInfo u p req) st.ext).1.2 = some err := by rw [hres]
    have hc : 100 ≤ (match err.StatusCode with
        | some c => c
        | none => http.StatusInternalServerError)
        ∧ (match err.StatusCode with
            | some c => c
            | none => http.StatusInternalServerError) ≤ 999
        ∧ (match err.StatusCode with
            | some c => c
            | none => http.StatusInternalServerError) ≠ 101
        ∧ (match err.StatusCode with
            | some c => c
            | none => http.StatusInternalServerError) ≠ 204
        ∧ (match err.StatusCode with
            | some c => c
            | none => http.StatusInternalServerError) ≠ 304 := by
      cases hs : err.StatusCode with
      | none => decide
      | some S => exact hcode S hs
    rw [respondTo_of_not_head req _ hm, gateCalls,
      Authenticator_error authf handler w req st u p err hb he,
      gateCalls_http_Error _ _ _ ⟨hc.1, hc.2.1⟩, respond_http_Error_body _ _ hc]
  · intro hres
    have he : (authf (buildInfo u p req) st.ext).1.2 = none := by rw [hres]
    have ha : (authf (buildInfo u p req) st.ext).1.1 = false := by rw [hres]
    rw [respondTo_of_not_head req _ hm, gateCalls,
      Authenticator_denied authf handler w req st u p hb he ha,
      gateCalls_http_Error _ _ _ (by decide), respond_http_Error_body _ _ (by decide)]

/-- C5, amended, at the error `teapot` (status 418) and at a plain denial, for
a `GET` request. -/
theorem C5_body_message_line_witness :
    (respondTo reqAlice (gateCalls (constAuth false (some teapot)) okHandler [] reqAlice
        World.init)).body = "teapot".toList ++ ['\n']
      ∧ (respondTo reqAlice (gateCalls (constAuth false none) okHandler [] reqAlice
          World.init)).body = "Forbidden".toList ++ ['\n'] :=
  ⟨(C5_body_message_line (constAuth false (some teapot)) okHandler [] reqAlice World.init
      "alice".toList "s3cret".toList rfl (by decide)).1 false teapot rfl
      (fun S hS => by
        have h418 : S = 418 := (Option.some.inj hS).symm
        rw [h418]; decide),
   (C5_body_message_line (constAuth false none) okHandler [] reqAlice World.init
      "alice".toList "s3cret".toList rfl (by decide)).2 rfl⟩

theorem Request.parseForm_frame (r : Request) :
    r.parseForm.Method = r.Method ∧ r.parseForm.BasicAuth = r.BasicAuth
      ∧ r.parseForm.URLPath = r.URLPath ∧ r.parseForm.parsed = r.parsed := by
  unfold Request.parseForm
  cases h : r.fields.Form <;> exact ⟨rfl, rfl, rfl, rfl⟩

theorem Request.parseForm_of_parsed (r : Request) (h : r.fields.Form ≠ none) :
    r.parseForm = r := by
  unfold Request.parseForm
  cases hf : r.fields.Form with
  | none => exact absurd hf h
  | some f => rfl

theorem Request.parseForm_of_unparsed (r : Request) (h : r.fields.Form = none) :
    r.parseForm.fields
      = { Form := some r.parsed.Form, PostForm := some r.parsed.PostForm,
          MultipartForm := r.parsed.MultipartForm, Body := r.parsed.Body } := by
  unfold Request.parseForm
  rw [h]

/-- C6 as stated fails.  For a `POST` whose body is the URL-encoded form
`service=git-upload-pack`, the gate's reading of the `service` parameter parses
the form and reads the body before the handler runs: the request the handler
receives is not the one the gate received, its body is empty, and a handler
that echoes the body answers differently behind the gate than on the inbound
request. -/
theorem C6_transparent_counterexample :
    (Authenticator (constAuth true none) echoHandler [] reqFormPost World.init).2.handlerCalls
        = [([], reqFormPost.parseForm)]
      ∧ reqFormPost.parseForm ≠ reqFormPost
      ∧ reqFormPost.fields.Body = "service=git-upload-pack".toList
      ∧ reqFormPost.parseForm.fields.Body = []
      ∧ (Authenticator (constAuth true none) echoHandler [] reqFormPost World.init).1
        = [WriterCall.writeHeader 200, WriterCall.write []]
      ∧ (echoHandler [] reqFormPost ()).1
        = [WriterCall.writeHeader 200, WriterCall.write "service=git-upload-pack".toList]
      ∧ (Authenticator (constAuth true none) echoHandler [] reqFormPost World.init).1
        ≠ (echoHandler [] reqFormPost ()).1 := by
  decide

/-- C6, amended: on the granted path the gate calls the downstream handler once,
with the response writer it received, on which it has made no call (no status,
no header, no body), and with the inbound request in the state the decision
function leaves it; the resulting writer and collaborator state are exactly
those the handler produces.  The decision function itself received the request
with its form parsed: the gate's reading of the `service` parameter sets
`Form`, `PostForm` and `MultipartForm` and reads a form body when the form was
not parsed yet, and changes nothing else of the request. -/
theorem C6_granted_transparent {σ : Type} (authf : AuthFunc σ) (handler : Handler σ)
    (w : ResponseWriter) (req : Request) (st : World σ) (u p : List Char)
    (hb : req.BasicAuth = some (u, p))
    (hres : (authf (buildInfo u p req) st.ext).1 = (true, none)) :
    (Authenticator authf handler w req st).2.handlerCalls
        = st.handlerCalls ++ [(w, (authf (buildInfo u p req) st.ext).2.2)]
      ∧ (Authenticator authf handler w req st).1
          = (handler w (authf (buildInfo u p req) st.ext).2.2
              (authf (buildInfo u p req) st.ext).2.1).1
      ∧ (Authenticator authf handler w req st).2.ext
          = (handler w (authf (buildInfo u p req) st.ext).2.2
              (authf (buildInfo u p req) st.ext).2.1).2
      ∧ (buildInfo u p req).Request = req.parseForm
      ∧ (req.parseForm.Method = req.Method ∧ req.parseForm.BasicAuth = req.BasicAuth
          ∧ req.parseForm.URLPath = req.URLPath ∧ req.parseForm.parsed = req.parsed)
      ∧ (req.fields.Form ≠ none → req.parseForm = req)
      ∧ (req.fields.Form = none →
          req.parseForm.fields
            = { Form := some req.parsed.Form, PostForm := some req.parsed.PostForm,
                MultipartForm := req.parsed.MultipartForm, Body := req.parsed.Body }) := by
  have he : (authf (buildInfo u p req) st.ext).1.2 = none := by rw [hres]
  have ha : (authf (buildInfo u p req) st.ext).1.1 = true := by rw [hres]
  rw [Authenticator_granted authf handler w req st u p hb he ha]
  refine ⟨rfl, rfl, rfl, ?_, Request.parseForm_frame req, Request.parseForm_of_parsed req,
    Request.parseForm_of_unparsed req⟩
  rw [buildInfo_eq]

/-- C6, amended, at a decision function that grants and leaves the request
alone, on the form `POST`: the handler receives the fresh writer and the
request with its form parsed and its body read, and the response is the
handler's. -/
theorem C6_granted_transparent_witness :
    (Authenticator (constAuth true none) okHandler [] reqFormPost World.init).2.handlerCalls
        = [([], reqFormPost.parseForm)]
      ∧ (Authenticator (constAuth true none) okHandler [] reqFormPost World.init).1
        = [WriterCall.writeHeader 200, WriterCall.write "ok".toList]
      ∧ reqFormPost.parseForm.fields
        = { Form := some [("service".toList, "git-upload-pack".toList)],
            PostForm := some [("service".toList, "git-upload-pack".toList)],
            MultipartForm := none, Body := [] } :=
  have h := C6_granted_transparent (constAuth true none) okHandler [] reqFormPost World.init
    "alice".toList "s3cret".toList rfl rfl
  ⟨h.1.trans (by decide), h.2.1, h.2.2.2.2.2.2 rfl⟩

/-- C7 as stated fails in its last part.  For the form `POST` the request in the
`AuthInfo` the decision function receives is not the request as it came in: its
form has been parsed and its body read. -/
theorem C7_request_counterexample :
    (Authenticator (constAuth true none) okHandler [] reqFormPost
        World.init).2.authfCalls.map (fun info => info.Request) = [reqFormPost.parseForm]
      ∧ reqFormPost.parseForm ≠ reqFormPost
      ∧ reqFormPost.fields.Body = "service=git-upload-pack".toList
      ∧ reqFormPost.parseForm.fields.Body = [] := by
  decide

/-- C7, amended: for a request with Basic-Auth credentials `(u, p)` the decision
function is called exactly once, and the `AuthInfo` it receives has
`Username = u`, `Password = p`, `Repo = repoName(URL path)`,
`Push = isPush(req)`, `Fetch = isFetch(req)` and `Request` the inbound request
with its form parsed (`Form`, `PostForm` and `MultipartForm` set and a form
body read when the form was not parsed yet, nothing else changed).  The record
is the one the spy on the decision function keeps; the state of the
collaborators is what that one call, followed on the granted path by the
handler, makes of it. -/
theorem C7_decision_called_once {σ : Type} (authf : AuthFunc σ) (handler : Handler σ)
    (w : ResponseWriter) (req : Request) (st : World σ) (u p : List Char)
    (hb : req.BasicAuth = some (u, p)) :
    (Authenticator authf handler w req st).2.authfCalls
        = st.authfCalls ++
          [{ Username := u, Password := p, Repo := repoName req.URLPath,
             Push := isPush req, Fetch := isFetch req, Request := req.parseForm }]
      ∧ (Authenticator authf handler w req st).2.ext
        = (if granted authf req st.ext = true
            then (handler w (authf (buildInfo u p req) st.ext).2.2
                    (authf (buildInfo u p req) st.ext).2.1).2
            else (authf (buildInfo u p req) st.ext).2.1)
      ∧ (req.parseForm.Method = req.Method ∧ req.parseForm.BasicAuth = req.BasicAuth
          ∧ req.parseForm.URLPath = req.URLPath ∧ req.parseForm.parsed = req.parsed)
      ∧ (req.fields.Form ≠ none → req.parseForm = req)
      ∧ (req.fields.Form = none →
          req.parseForm.fields
            = { Form := some req.parsed.Form, PostForm := some req.parsed.PostForm,
                MultipartForm := req.parsed.MultipartForm, Body := req.parsed.Body }) := by
  refine ⟨?_, ?_, Request.parseForm_frame req, Request.parseForm_of_parsed req,
    Request.parseForm_of_unparsed req⟩
  · rw [← buildInfo_eq]
    cases he : (authf (buildInfo u p req) st.ext).1.2 with
    | some err => rw [Authenticator_error authf handler w req st u p err hb he]
    | none =>
      cases ha : (authf (buildInfo u p req) st.ext).1.1 with
      | false => rw [Authenticator_denied authf handler w req st u p hb he ha]
      | true => rw [Authenticator_granted authf handler w req st u p hb he ha]
  · cases he : (authf (buildInfo u p req) st.ext).1.2 with
    | some err =>
      simp [Authenticator_error authf handler w req st u p err hb he, granted, hb, he]
    | none =>
      cases ha : (authf (buildInfo u p req) st.ext).1.1 with
      | false =>
        simp [Authenticator_denied authf handler w req st u p hb he ha, granted, hb, he, ha]
      | true =>
        simp [Authenticator_granted authf handler w req st u p hb he ha, granted, hb, he, ha]

/-- C7, amended, at the request of `alice` for `/org/project/info/refs` with
`service=git-upload-pack`: one call, for the repository `org/project`, a fetch
and not a push, with the form of the request parsed. -/
theorem C7_decision_called_once_witness :
    (Authenticator (constAuth true none) okHandler [] reqAlice World.init).2.authfCalls
      = [{ Username := "alice".toList, Password := "s3cret".toList,
           Repo := repoName reqAlice.URLPath, Push := isPush reqAlice,
           Fetch := isFetch reqAlice, Request := reqAlice.parseForm }]
      ∧ repoName reqAlice.URLPath = "org/project".toList
      ∧ isPush reqAlice = false ∧ isFetch reqAlice = true
      ∧ reqAlice.parseForm.fields.Form = some [("service".toList, "git-upload-pack".toList)] :=
  ⟨(C7_decision_called_once (constAuth true none) okHandler [] reqAlice World.init
      "alice".toList "s3cret".toList rfl).1,
   by decide, by decide, by decide, by decide⟩

/-! ## Operation classification -/

theorem getServiceType_eq (req : Request) :
    getServiceType req
      = if "git-".toList.isPrefixOf (req.FormValue "service".toList) = true
        then (req.FormValue "service".toList).drop 4 else [] := by
  unfold getServiceType strings.HasPrefix
  by_cases h : "git-".toList.isPrefixOf (req.FormValue "service".toList) = true
  · simp only [h, Bool.not_true, if_true]
    cases hv : req.FormValue "service".toList with
    | nil => rw [hv] at h; exact absurd h (by decide)
    | cons c t =>
      rw [hv] at h
      rw [strings.ReplaceFirst, if_pos h]
      rfl
  · have hf : "git-".toList.isPrefixOf (req.FormValue "service".toList) = false := by
      cases hb : "git-".toList.isPrefixOf (req.FormValue "service".toList) with
      | false => rfl
      | true => exact absurd hb h
    simp only [hf, Bool.not_false, if_true]
    rfl

theorem getServiceType_eq_iff (req : Request) (t : List Char) (ht : t ≠ []) :
    getServiceType req = t ↔ req.FormValue "service".toList = "git-".toList ++ t := by
  rw [getServiceType_eq]
  by_cases h : "git-".toList.isPrefixOf (req.FormValue "service".toList) = true
  · rw [if_pos h]
    obtain ⟨u, hu⟩ := List.isPrefixOf_iff_prefix.mp h
    rw [← hu]
    have hd : ("git-".toList ++ u).drop 4 = u := by
      rw [List.drop_append_of_le_length] <;> simp
    rw [hd]
    constructor
    · intro e; rw [e]
    · intro e; exact List.append_cancel_left e
  · rw [if_neg h]
    constructor
    · intro e; exact absurd e.symm ht
    · intro e
      exfalso
      apply h
      rw [e]
      exact List.isPrefixOf_iff_prefix.mpr ⟨t, rfl⟩

theorem isService_iff (service : List Char) (hs : service ≠ []) (req : Request) :
    isService service req = true
      ↔ req.FormValue "service".toList = "git-".toList ++ service
        ∨ strings.HasSuffix req.URLPath service = true := by
  unfold isService
  rw [Bool.or_eq_true, beq_iff_eq, getServiceType_eq_iff req service hs]

/-- C11: for every request, Fetch is true exactly when the `service` parameter
equals `git-upload-pack` or the URL path ends with `upload-pack`, and Push is
true exactly when the `service` parameter equals `git-receive-pack` or the URL
path ends with `receive-pack`. -/
theorem C11_fetch_push_classification (req : Request) :
    (isFetch req = true
        ↔ req.FormValue "service".toList = "git-upload-pack".toList
          ∨ strings.HasSuffix req.URLPath "upload-pack".toList = true)
      ∧ (isPush req = true
        ↔ req.FormValue "service".toList = "git-receive-pack".toList
          ∨ strings.HasSuffix req.URLPath "receive-pack".toList = true) :=
  ⟨isService_iff "upload-pack".toList (by decide) req,
   isService_iff "receive-pack".toList (by decide) req⟩

theorem getServiceType_of_no_git (req : Request)
    (h : strings.HasPrefix (req.FormValue "service".toList) "git-".toList = false) :
    getServiceType req = [] := by
  rw [getServiceType_eq]
  unfold strings.HasPrefix at h
  rw [h]
  rfl

theorem isService_of_no_git (service : List Char) (hs : service ≠ []) (req : Request)
    (h : strings.HasPrefix (req.FormValue "service".toList) "git-".toList = false) :
    isService service req = strings.HasSuffix req.URLPath service := by
  unfold isService
  rw [getServiceType_of_no_git req h]
  have hne : (([] : List Char) == service) = false := by
    cases service with
    | nil => exact absurd rfl hs
    | cons c t => rfl
  rw [hne, Bool.false_or]

/-- C13: when the `service` parameter is absent or does not start with `git-`
(the bare values `upload-pack` and `receive-pack` included), `getServiceType`
returns the empty string, Fetch equals "the path ends with `upload-pack`" and
Push equals "the path ends with `receive-pack`"; and for a value that starts
with `git-`, `getServiceType` returns the value with exactly that leading
`git-` removed. -/
theorem C13_service_type (req : Request) :
    (strings.HasPrefix (req.FormValue "service".toList) "git-".toList = false →
        getServiceType req = []
          ∧ isFetch req = strings.HasSuffix req.URLPath "upload-pack".toList
          ∧ isPush req = strings.HasSuffix req.URLPath "receive-pack".toList)
      ∧ (req.Form.find? (fun kv => kv.1 = "service".toList) = none →
        strings.HasPrefix (req.FormValue "service".toList) "git-".toList = false)
      ∧ (∀ t, req.FormValue "service".toList = "git-".toList ++ t → getServiceType req = t) := by
  refine ⟨?_, ?_, ?_⟩
  · intro h
    exact ⟨getServiceType_of_no_git req h,
      isService_of_no_git "upload-pack".toList (by decide) req h,
      isService_of_no_git "receive-pack".toList (by decide) req h⟩
  · intro h
    unfold Request.FormValue
    rw [h]
    rfl
  · intro t ht
    rw [getServiceType_eq, ht]
    have hp : "git-".toList.isPrefixOf ("git-".toList ++ t) = true :=
      List.isPrefixOf_iff_prefix.mpr ⟨t, rfl⟩
    rw [if_pos hp, List.drop_append_of_le_length] <;> simp

/-- C13 at the bare value `upload-pack` on `/r/info/refs` (no service type,
neither fetch nor push), at a request without the parameter whose path ends in
`git-upload-pack` (a fetch by the path alone), and at the value
`git-upload-pack` (service type `upload-pack`). -/
theorem C13_service_type_witness :
    (getServiceType (reqFor "/r/info/refs".toList [("service".toList, "upload-pack".toList)])
          = []
        ∧ isFetch (reqFor "/r/info/refs".toList [("service".toList, "upload-pack".toList)])
          = false
        ∧ isPush (reqFor "/r/info/refs".toList [("service".toList, "upload-pack".toList)])
          = false)
      ∧ (getServiceType (reqFor "/r/git-upload-pack".toList []) = []
        ∧ isFetch (reqFor "/r/git-upload-pack".toList []) = true
        ∧ isPush (reqFor "/r/git-upload-pack".toList []) = false)
      ∧ getServiceType
          (reqFor "/r/info/refs".toList [("service".toList, "git-upload-pack".toList)])
        = "upload-pack".toList :=
  ⟨(C13_service_type
      (reqFor "/r/info/refs".toList [("service".toList, "upload-pack".toList)])).1 (by decide),
   (C13_service_type (reqFor "/r/git-upload-pack".toList [])).1
      ((C13_service_type (reqFor "/r/git-upload-pack".toList [])).2.1 (by decide)),
   (C13_service_type
      (reqFor "/r/info/refs".toList [("service".toList, "git-upload-pack".toList)])).2.2
      "upload-pack".toList (by decide)⟩

/-- C14: classification does not depend on route matching.  A request whose URL
path ends in `receive-pack` is a push whatever its `service` parameter; this
includes paths that match no route shape, such as `/xreceive-pack`, for which
the pattern has no match and `repoName` returns the empty string. -/
theorem C14_push_by_suffix (req : Request)
    (h : strings.HasSuffix req.URLPath "receive-pack".toList = true) :
    isPush req = true
      ∧ strings.HasSuffix "/xreceive-pack".toList "receive-pack".toList = true
      ∧ FindStringSubmatch repoNameRegex "/xreceive-pack".toList = none
      ∧ repoName "/xreceive-pack".toList = [] := by
  refine ⟨?_, by decide, by decide, by decide⟩
  unfold isPush isService
  rw [h, Bool.or_true]

/-- C14 at the path `/xreceive-pack` with `service=git-upload-pack`: a push, for
an empty repository name. -/
theorem C14_push_by_suffix_witness :
    isPush (reqFor "/xreceive-pack".toList [("service".toList, "git-upload-pack".toList)])
        = true
      ∧ repoName
          (reqFor "/xreceive-pack".toList
            [("service".toList, "git-upload-pack".toList)]).URLPath = [] :=
  have h := C14_push_by_suffix
    (reqFor "/xreceive-pack".toList [("service".toList, "git-upload-pack".toList)])
    (by decide)
  ⟨h.1, h.2.2.2⟩

/-- C15: Push and Fetch are independent: each of the four pairs of values is
produced by some request. -/
theorem C15_push_fetch_independent :
    ∀ push fetch : Bool, ∃ req : Request, isPush req = push ∧ isFetch req = fetch := by
  intro push fetch
  cases push <;> cases fetch
  · exact ⟨reqFor "/r/HEAD".toList [], by decide, by decide⟩
  · exact ⟨reqFor "/r/info/refs".toList [("service".toList, "git-upload-pack".toList)],
      by decide, by decide⟩
  · exact ⟨reqFor "/r/info/refs".toList [("service".toList, "git-receive-pack".toList)],
      by decide, by decide⟩
  · exact ⟨reqFor "/r/git-receive-pack".toList [("service".toList, "git-upload-pack".toList)],
      by decide, by decide⟩

theorem not_both_suffixes (p : List Char) :
    ¬ (strings.HasSuffix p "upload-pack".toList = true
        ∧ strings.HasSuffix p "receive-pack".toList = true) := by
  rintro ⟨h1, h2⟩
  unfold strings.HasSuffix at h1 h2
  have s1 := List.isSuffixOf_iff_suffix.mp h1
  have s2 := List.isSuffixOf_iff_suffix.mp h2
  rcases List.suffix_or_suffix_of_suffix s1 s2 with h | h
  · exact absurd h (by decide)
  · exact absurd h (by decide)

/-- C16: Push and Fetch are both true only when the `service` parameter and the
path suffix name different operations: the parameter is `git-upload-pack` and
the path ends with `receive-pack`, or the parameter is `git-receive-pack` and
the path ends with `upload-pack`.  In particular, when the parameter is absent
or does not start with `git-`, Push and Fetch are not both true. -/
theorem C16_both_only_on_disagreement (req : Request) :
    (isPush req = true ∧ isFetch req = true →
        (req.FormValue "service".toList = "git-upload-pack".toList
            ∧ strings.HasSuffix req.URLPath "receive-pack".toList = true)
          ∨ (req.FormValue "service".toList = "git-receive-pack".toList
            ∧ strings.HasSuffix req.URLPath "upload-pack".toList = true))
      ∧ (req.Form.find? (fun kv => kv.1 = "service".toList) = none
          ∨ strings.HasPrefix (req.FormValue "service".toList) "git-".toList = false →
        ¬ (isPush req = true ∧ isFetch req = true)) := by
  have hpush := isService_iff "receive-pack".toList (by decide) req
  have hfetch := isService_iff "upload-pack".toList (by decide) req
  constructor
  · rintro ⟨hp, hf⟩
    rcases (hpush.mp hp) with hp1 | hp1 <;> rcases (hfetch.mp hf) with hf1 | hf1
    · rw [hp1] at hf1
      exact absurd hf1 (by decide)
    · exact Or.inr ⟨hp1, hf1⟩
    · exact Or.inl ⟨hf1, hp1⟩
    · exact absurd ⟨hf1, hp1⟩ (not_both_suffixes req.URLPath)
  · intro h
    have hno : strings.HasPrefix (req.FormValue "service".toList) "git-".toList = false := by
      rcases h with h | h
      · unfold Request.FormValue
        rw [h]
        rfl
      · exact h
    rintro ⟨hp, hf⟩
    have hp1 : isPush req = strings.HasSuffix req.URLPath "receive-pack".toList :=
      isService_of_no_git "receive-pack".toList (by decide) req hno
    have hf1 : isFetch req = strings.HasSuffix req.URLPath "upload-pack".toList :=
      isService_of_no_git "upload-pack".toList (by decide) req hno
    rw [hp1] at hp
    rw [hf1] at hf
    exact not_both_suffixes req.URLPath ⟨hf, hp⟩

/-- C16 at `service=git-upload-pack` on `/r/git-receive-pack`, where both flags
are true, and at a request without the parameter, where they are not. -/
theorem C16_both_only_on_disagreement_witness :
    ((reqFor "/r/git-receive-pack".toList
          [("service".toList, "git-upload-pack".toList)]).FormValue "service".toList
          = "git-upload-pack".toList
        ∧ strings.HasSuffix
            (reqFor "/r/git-receive-pack".toList
              [("service".toList, "git-upload-pack".toList)]).URLPath
            "receive-pack".toList = true)
      ∧ ¬ (isPush (reqFor "/r/git-receive-pack".toList []) = true
          ∧ isFetch (reqFor "/r/git-receive-pack".toList []) = true) :=
  ⟨((C16_both_only_on_disagreement
        (reqFor "/r/git-receive-pack".toList
          [("service".toList, "git-upload-pack".toList)])).1
      ⟨by decide, by decide⟩).resolve_right (by decide),
   (C16_both_only_on_disagreement (reqFor "/r/git-receive-pack".toList [])).2
      (Or.inl (by decide))⟩

/-! ## Repository extraction: leading slash and soundness -/

/-- C12: repository extraction accepts its route shapes with or without a
leading slash: for a path `p` that does not itself begin with `/`,
`repoName("/" + p)` equals `repoName(p)`. -/
theorem C12_leading_slash_optional (p : List Char) (h : ¬ "/".toList <+: p) :
    repoName ("/".toList ++ p) = repoName p := by
  have hp : repoNameScan p = lazyScan p := by
    cases p with
    | nil => rfl
    | cons x t =>
      have hx : ¬ x = '/' := by
        intro hx
        apply h
        rw [hx]
        exact ⟨t, rfl⟩
      rw [repoNameScan, if_neg hx]
  rw [repoName_eq_scan, repoName_eq_scan, hp]
  show (repoNameScan ('/' :: p)).getD [] = _
  rw [repoNameScan, if_pos rfl]
  cases h1 : lazyScan p with
  | some r => rfl
  | none =>
    rw [lazyScan, h1]
    by_cases he : '/' = '/' ∧ reEndpoint p = true
    · rw [if_pos he]; rfl
    · rw [if_neg he]; rfl

/-- C12 at `org/project/info/refs`: with and without the leading slash the
repository is `org/project`. -/
theorem C12_leading_slash_optional_witness :
    repoName ("/".toList ++ "org/project/info/refs".toList)
        = repoName "org/project/info/refs".toList
      ∧ repoName "org/project/info/refs".toList = "org/project".toList :=
  ⟨C12_leading_slash_optional "org/project/info/refs".toList (by decide), by decide⟩

theorem repoNameScan_of_repoName_ne_nil (p : List Char) (h : repoName p ≠ []) :
    repoNameScan p = some (repoName p) := by
  rw [repoName_eq_scan] at h ⊢
  cases hs : repoNameScan p with
  | none => rw [hs] at h; exact absurd rfl h
  | some r => rfl

/-- C17: extraction is sound.  When `repoName` returns a non-empty string `r`,
the path is `s + r + "/" + e` for some `s` that is empty or `/` and some
recognized endpoint `e`, and `r` is the shortest candidate: no proper prefix
`r1` of `r` gives a decomposition `s + r1 + "/" + e1` with `e1` a recognized
endpoint. -/
theorem C17_extraction_sound (p : List Char) (h : repoName p ≠ []) :
    ∃ s e, (s = [] ∨ s = ['/']) ∧ isEndpoint e = true ∧ p = s ++ repoName p ++ '/' :: e
      ∧ ∀ r1 e1, r1 <+: repoName p → r1 ≠ repoName p → isEndpoint e1 = true →
          p ≠ s ++ r1 ++ '/' :: e1 := by
  have hs := repoNameScan_of_repoName_ne_nil p h
  obtain ⟨s, e, hs1, hp, hre, hnl, hscan, _⟩ := repoNameScan_some p (repoName p) hs
  refine ⟨s, e, hs1, reEndpoint_isEndpoint e hre, hp, ?_⟩
  intro r1 e1 hpre hne he1 hp1
  have heq : repoName p ++ '/' :: e = r1 ++ '/' :: e1 := by
    have h2 := hp.symm.trans hp1
    simp only [List.append_assoc] at h2
    exact List.append_cancel_left h2
  have hen := reEndpoint_no_newline e hre
  have he1n : '\n' ∉ e1 := by
    intro hm
    have hmem : '\n' ∈ repoName p ++ '/' :: e := by
      rw [heq]
      simp [hm]
    rcases List.mem_append.mp hmem with hm1 | hm1
    · exact hnl hm1
    · rcases List.mem_cons.mp hm1 with hm2 | hm2
      · exact absurd hm2 (by decide)
      · exact hen hm2
  have hre1 := isEndpoint_reEndpoint e1 he1 he1n
  have hle := lazyScan_minimal _ (repoName p) hscan r1 e1 heq hre1
  have hlen : r1.length = (repoName p).length := Nat.le_antisymm hpre.length_le hle
  exact hne (List.IsPrefix.eq_of_length hpre hlen)

/-- C17 at `/org/project/git-upload-pack`: the repository `org/project` is not
empty, and the path decomposes around it. -/
theorem C17_extraction_sound_witness :
    repoName "/org/project/git-upload-pack".toList ≠ []
      ∧ ∃ s e, (s = [] ∨ s = ['/']) ∧ isEndpoint e = true
        ∧ "/org/project/git-upload-pack".toList
            = s ++ repoName "/org/project/git-upload-pack".toList ++ '/' :: e
        ∧ ∀ r1 e1, r1 <+: repoName "/org/project/git-upload-pack".toList →
            r1 ≠ repoName "/org/project/git-upload-pack".toList → isEndpoint e1 = true →
            "/org/project/git-upload-pack".toList ≠ s ++ r1 ++ '/' :: e1 :=
  ⟨by decide, C17_extraction_sound "/org/project/git-upload-pack".toList (by decide)⟩

end Auth
